import Mathlib

/-!
A shallow embedding of the RAMCloud log-structured storage core: the `Log`
(src/Log.cc) and the `BackupManager` (src/BackupManager.cc), together with
proofs about them.

External collaborators that belong to the repository but are not present
under src/ (the Segment framing code, the LogCleaner, the BackupClient and
transport layer, and the random generator) are modelled from the
specification; every such definition carries a doc comment that starts with
"Modelled from the spec".  Machine integers are modelled as `Nat`, with the
64-bit wraparound of `random++` in `selectOpenHosts` made explicit as
`% 2 ^ 64` because it affects behaviour; sessions and service locators are
modelled as the locator strings; remote procedure calls and log statements
are modelled as explicit event traces.
-/

namespace RAMCloud

/-- Association-list model of an STL map lookup (`find` / `operator[]` read).
The first entry with the given key wins. -/
def mapLookup {β : Type} : List (Nat × β) → Nat → Option β
  | [], _ => none
  | kv :: rest, k => if kv.1 == k then some kv.2 else mapLookup rest k

/-- Association-list model of an STL map write through `operator[]`: the key
is overwritten if present. -/
def mapInsert {β : Type} (m : List (Nat × β)) (k : Nat) (v : β) : List (Nat × β) :=
  (k, v) :: m.filter (fun kv => kv.1 != k)

/-! ### Segment (modelled from the spec) -/

/-- Modelled from the spec: per-entry framing overhead of the external
Segment code (Segment.cc is not under src/).  Each appended entry is
preceded by a fixed-size entry header. -/
def entryHeaderBytes : Nat := 8

/-- Modelled from the spec: space the external Segment code reserves for the
footer entry written by `close()` (Segment.cc is not under src/). -/
def footerBytes : Nat := 8

/-- Modelled from the spec: the external Segment object (Segment.cc is not
under src/).  A segment frames a fixed-size buffer (base address
`baseAddr`, size `capacity`) as a sequence of typed entries; `tail` is the
next free offset and `closed` records whether the footer has been
written. -/
structure Segment where
  logId : Nat
  segId : Nat
  baseAddr : Nat
  capacity : Nat
  tail : Nat
  closed : Bool
deriving DecidableEq, Repr

/-- Modelled from the spec: construction of a fresh segment over a buffer. -/
def Segment.make (logId segId baseAddr capacity : Nat) : Segment :=
  ⟨logId, segId, baseAddr, capacity, 0, false⟩

/-- Modelled from the spec: `Segment::append` returns a pointer into the
buffer on success and `none` when the entry does not fit (the caller must
roll the head); an entry consumes its header plus its payload, and room for
the footer entry is always kept. -/
def Segment.append (s : Segment) (len : Nat) : Option (Nat × Segment) :=
  if s.closed then none
  else if s.tail + entryHeaderBytes + len + footerBytes ≤ s.capacity then
    some (s.baseAddr + s.tail + entryHeaderBytes,
          { s with tail := s.tail + entryHeaderBytes + len })
  else none

/-- Modelled from the spec: `Segment::close` finalises the framing. -/
def Segment.close (s : Segment) : Segment :=
  { s with closed := true }

/-- Modelled from the spec: `Segment::appendableBytes` reports the largest
single-entry payload the framing still permits. -/
def Segment.appendableBytes (s : Segment) : Nat :=
  s.capacity - s.tail - entryHeaderBytes - footerBytes

/-! ### Log (src/Log.cc) -/

/-- Backup-facing and framing events emitted while the Log operates.
`openSeg`/`writeSeg`/`closeSeg` are the BackupManager hooks the Segment
invokes (spec: Segment contract); `segClosed` records that
`Segment::close` itself ran. -/
inductive LEvent
  | openSeg (segId : Nat)
  | writeSeg (segId : Nat)
  | segClosed (segId : Nat)
  | closeSeg (segId : Nat)
deriving DecidableEq, Repr

/-- State of a `Log` (src/Log.cc).  Buffer addresses are `Nat`s; `backup`
records whether a BackupManager is attached (a non-null `backup` pointer).
Both active maps store the segment values; head mutation writes the updated
segment back into both maps, mirroring the pointer aliasing of the C++
code. -/
structure Log where
  logId : Nat
  logCapacity : Nat
  segmentCapacity : Nat
  segmentFreeList : List Nat
  nextSegmentId : Nat
  maximumAppendableBytes : Nat
  head : Option Segment
  callbackMap : List (Nat × Nat × Nat)
  activeIdMap : List (Nat × Segment)
  activeBaseAddressMap : List (Nat × Segment)
  backup : Bool
deriving DecidableEq, Repr

/-- Result of `Log::append`: a pointer, NULL (log full), or a thrown
LogException. -/
inductive LogAppendResult
  | ok (p : Nat)
  | full
  | err
deriving DecidableEq, Repr

/-- Write an updated head segment back: `head` and both active maps alias
the same Segment object in the C++ code (Log.cc `addToActiveMaps` keys). -/
def Log.setHead (l : Log) (h : Segment) : Log :=
  { l with head := some h,
           activeIdMap := mapInsert l.activeIdMap h.segId h,
           activeBaseAddressMap := mapInsert l.activeBaseAddressMap h.baseAddr h }

/-- One head-append attempt of the `Log::append` loop body
(`p = head->append(type, buffer, length)`). -/
def Log.tryAppend (l : Log) (len : Nat) : Option (Nat × Log × List LEvent) :=
  match l.head with
  | none => none
  | some h =>
    match h.append len with
    | none => none
    | some (p, h') =>
      some (p, l.setHead h', if l.backup then [LEvent.writeSeg h'.segId] else [])

/-- The `head->close(); head = NULL;` step of `Log::append` (and the closed
segment written back to both active maps, per aliasing). -/
def Log.closeHeadStep (l : Log) : Log × List LEvent :=
  match l.head with
  | none => (l, [])
  | some h =>
    ({ l with head := none,
              activeIdMap := mapInsert l.activeIdMap h.segId h.close,
              activeBaseAddressMap :=
                mapInsert l.activeBaseAddressMap h.baseAddr h.close },
     LEvent.segClosed h.segId ::
       (if l.backup then [LEvent.closeSeg h.segId] else []))

/-- Allocation of a new head in `Log::append`: pop a buffer from the back of
the free list, allocate the next segment id, construct the segment (which
advertises itself to the backup, per the Segment contract) and register it
in both active maps (`addToActiveMaps`). -/
def Log.rollHead (l : Log) (b : Nat) : Log × Nat × List LEvent :=
  let sid := l.nextSegmentId
  let h := Segment.make l.logId sid b l.segmentCapacity
  ({ l with segmentFreeList := l.segmentFreeList.dropLast,
            nextSegmentId := sid + 1,
            head := some h,
            activeIdMap := mapInsert l.activeIdMap sid h,
            activeBaseAddressMap := mapInsert l.activeBaseAddressMap b h },
   sid,
   if l.backup then [LEvent.openSeg sid] else [])

/-- Modelled from the spec: `cleaner->clean(1)` amortises one unit of
compaction work; the cleaner policy is external (LogCleaner.cc is not under
src/) and is modelled as performing no eviction. -/
def LogCleaner.clean (l : Log) (_ : Nat) : Log := l

/-- The do/while retry loop of `Log::append`.  `fuel` bounds the number of
iterations; `Log.append` supplies `segmentFreeList.length + 1`, which is
always sufficient because every iteration that does not return pops one
buffer from the free list.  The last component counts executed loop
iterations. -/
def Log.appendLoop (len : Nat) : Nat → Log → Option Nat × Log × List LEvent × Nat
  | 0, l => (none, l, [], 0)
  | fuel + 1, l =>
    match l.tryAppend len with
    | some (p, l₁, evs) => (some p, l₁, evs, 1)
    | none =>
      let l₂ := (l.closeHeadStep).1
      let evs₁ := (l.closeHeadStep).2
      match l₂.segmentFreeList.getLast? with
      | none => (none, l₂, evs₁, 1)
      | some b =>
        let l₄ := (l₂.rollHead b).1
        let evs₂ := (l₂.rollHead b).2.2
        let res := Log.appendLoop len fuel (LogCleaner.clean l₄ 1)
        (res.1, res.2.1, evs₁ ++ evs₂ ++ res.2.2.1, res.2.2.2 + 1)

/-- `Log::append` (src/Log.cc, lines 158-194).  The entry type does not
influence control flow in the source and is omitted; on a thrown
LogException the state is returned unchanged (the throw happens before any
mutation). -/
def Log.append (l : Log) (len : Nat) : LogAppendResult × Log × List LEvent × Nat :=
  if l.maximumAppendableBytes < len then (.err, l, [], 0)
  else
    let res := Log.appendLoop len (l.segmentFreeList.length + 1) l
    ((match res.1 with
      | some p => LogAppendResult.ok p
      | none => LogAppendResult.full),
     res.2)

/-- `Log::getSegmentBaseAddress` (src/Log.cc, lines 375-380): round the
pointer down by `base - (base % segmentCapacity)`. -/
def Log.getSegmentBaseAddress (l : Log) (p : Nat) : Nat :=
  p - p % l.segmentCapacity

/-- `Log::getSegmentId` (src/Log.cc, lines 128-138): look the rounded base
up in `activeBaseAddressMap`; throw on a miss. -/
def Log.getSegmentId (l : Log) (p : Nat) : Except String Nat :=
  match mapLookup l.activeBaseAddressMap (l.getSegmentBaseAddress p) with
  | none => .error "free on invalid pointer"
  | some s => .ok s.segId

/-- `Log::isSegmentLive` (src/Log.cc). -/
def Log.isSegmentLive (l : Log) (segmentId : Nat) : Bool :=
  (mapLookup l.activeIdMap segmentId).isSome

/-- `Log::getMaximumAppendableBytes` (src/Log.cc). -/
def Log.getMaximumAppendableBytes (l : Log) : Nat :=
  l.maximumAppendableBytes

/-- Outcome of `Log::registerType`: normal return or a thrown
LogException. -/
inductive RegOutcome
  | ok
  | err
deriving DecidableEq, Repr

/-- `Log::registerType` (src/Log.cc, lines 237-245).  The callback function
pointer and its cookie are modelled as opaque numeric handles; a throw
leaves the log unchanged. -/
def Log.registerType (l : Log) (t cb cookie : Nat) : RegOutcome × Log :=
  if (mapLookup l.callbackMap t).isSome then (.err, l)
  else (.ok, { l with callbackMap := mapInsert l.callbackMap t (cb, cookie) })

/-- Well-formedness of a `Log` used by the pointer-lookup theorem: the
segment capacity is positive, every free buffer is aligned to
`segmentCapacity`, and the head segment (when present) has that capacity,
an aligned base, and is the entry of `activeBaseAddressMap` at its base. -/
def Log.wf (l : Log) : Bool :=
  decide (0 < l.segmentCapacity) &&
  l.segmentFreeList.all (fun b => b % l.segmentCapacity == 0) &&
  (match l.head with
   | none => true
   | some h =>
     h.capacity == l.segmentCapacity &&
     (h.baseAddr % l.segmentCapacity == 0) &&
     (mapLookup l.activeBaseAddressMap h.baseAddr == some h))

/-- The head segment id (when a head exists) is below `nextSegmentId`; true
of every reachable log because ids are allocated from that counter. -/
def Log.headIdOk (l : Log) : Bool :=
  match l.head with
  | none => true
  | some h => decide (h.segId < l.nextSegmentId)

/-- The head is absent or rejects an append of the given length (a new head
is needed for that length). -/
def Log.headRejects (l : Log) (len : Nat) : Bool :=
  match l.head with
  | none => true
  | some h => (h.append len).isNone

/-! ### BackupManager (src/BackupManager.cc) -/

/-- Server types of ProtoBuf server-list entries that the core inspects. -/
inductive ServerType
  | MASTER
  | BACKUP
deriving DecidableEq, Repr

/-- One entry of a ProtoBuf server list: a service locator, a server type
and an optional segment id. -/
structure HostEntry where
  service_locator : String
  server_type : ServerType
  segment_id : Option Nat
deriving DecidableEq, Repr

/-- Default host entry used for out-of-range indexing (unreachable under
the preconditions the source establishes before indexing). -/
def defaultHost : HostEntry :=
  ⟨"", ServerType.MASTER, none⟩

/-- Remote calls issued by the BackupManager; a session is identified by
the service locator it was opened on. -/
inductive BEvent
  | getServerList
  | openSeg (session : String) (masterId segId : Nat)
  | closeSeg (session : String) (masterId segId : Nat)
  | writeSeg (session : String) (masterId segId offset len : Nat)
  | freeSeg (session : String) (masterId segId : Nat)
deriving DecidableEq, Repr

/-- State of a `BackupManager` (src/BackupManager.cc).  The coordinator is
modelled by the server list its `getServerList` would return (`none` for a
NULL coordinator pointer); `openHosts` holds the sessions of the open
BackupClients; `segments` is the multimap from segment id to session, in
insertion order. -/
structure BackupManager where
  coordinator : Option (List HostEntry)
  hosts : List HostEntry
  openHosts : List String
  replicas : Nat
  segments : List (Nat × String)
deriving DecidableEq, Repr

/-- The selection loop of `BackupManager::selectOpenHosts`: starting from a
random 64-bit value, take `index = random % numHosts`, keep the entry if it
is a BACKUP, and increment `random` (with 64-bit wraparound) each
iteration, until `replicas` clients are open.  The result records the
chosen host indices with their locators; `fuel` bounds the iterations
(`none` on exhaustion). -/
def selectLoop (hosts : List HostEntry) (replicas : Nat) :
    Nat → Nat → Nat → List (Nat × String) → Option (List (Nat × String))
  | fuel, random, i, acc =>
    if i < replicas then
      match fuel with
      | 0 => none
      | fuel + 1 =>
        let index := random % hosts.length
        let host := hosts.getD index defaultHost
        if host.server_type = ServerType.BACKUP then
          selectLoop hosts replicas fuel ((random + 1) % 2 ^ 64) (i + 1)
            (acc ++ [(index, host.service_locator)])
        else
          selectLoop hosts replicas fuel ((random + 1) % 2 ^ 64) i acc
    else
      some acc

/-- Iteration budget handed to `selectLoop`; ample, since when the checked
preconditions hold the loop needs at most `numHosts` iterations after at
most one wraparound. -/
def selectFuel (numHosts replicas : Nat) : Nat :=
  3 * numHosts * (replicas + 1)

/-- `BackupManager::selectOpenHosts` (src/BackupManager.cc, lines 209-246),
with `generateRandom()` passed in as the `random` argument.  `DIE` is
modelled as `Except.error`. -/
def BackupManager.selectOpenHosts (bm : BackupManager) (random : Nat) :
    Except String (BackupManager × List BEvent) :=
  if bm.replicas = 0 then .ok (bm, [])
  else
    let refreshed : Except String (BackupManager × List BEvent) :=
      if bm.hosts.isEmpty then
        match bm.coordinator with
        | none => .error "No coordinator given, replication requirements cannot be met."
        | some serverList => .ok ({ bm with hosts := serverList }, [BEvent.getServerList])
      else .ok (bm, [])
    match refreshed with
    | .error e => .error e
    | .ok (bm₁, evs) =>
      let numBackupClients :=
        bm₁.hosts.countP (fun entry => entry.server_type == ServerType.BACKUP)
      if numBackupClients < bm₁.replicas then
        .error "Not enough backups to meet replication requirement"
      else if bm₁.openHosts.isEmpty = false then
        .error "Cannot select new backups when some are already open"
      else
        match selectLoop bm₁.hosts bm₁.replicas
            (selectFuel bm₁.hosts.length bm₁.replicas) random 0 [] with
        | none => .error "selection fuel exhausted"
        | some chosen => .ok ({ bm₁ with openHosts := chosen.map Prod.snd }, evs)

/-- `BackupManager::openSegment` (src/BackupManager.cc, lines 80-90): select
the open hosts, then call the remote `openSegment` on each and record
`(segmentId, session)` in the `segments` multimap. -/
def BackupManager.openSegment (bm : BackupManager) (random masterId segId : Nat) :
    Except String (BackupManager × List BEvent) :=
  match bm.selectOpenHosts random with
  | .error e => .error e
  | .ok (bm₁, evs) =>
    .ok ({ bm₁ with
             segments := bm₁.segments ++ bm₁.openHosts.map (fun h => (segId, h)) },
         evs ++ bm₁.openHosts.map (fun h => BEvent.openSeg h masterId segId))

/-- `BackupManager::closeSegment` (src/BackupManager.cc, lines 44-55): fan
out the remote `closeSegment` to every open host, destroy the clients and
clear `openHosts`; `segments` is untouched. -/
def BackupManager.closeSegment (bm : BackupManager) (masterId segId : Nat) :
    BackupManager × List BEvent :=
  ({ bm with openHosts := [] },
   bm.openHosts.map (fun h => BEvent.closeSeg h masterId segId))

/-- `BackupManager::setHostList` (src/BackupManager.cc, lines 182-186). -/
def BackupManager.setHostList (bm : BackupManager) (hosts : List HostEntry) :
    BackupManager :=
  { bm with hosts := hosts }

/-- An `openSegment` or `closeSegment` call, for reasoning about call
sequences. -/
inductive BOp
  | openSeg (random masterId segId : Nat)
  | closeSeg (masterId segId : Nat)
deriving DecidableEq, Repr

/-- Run one `openSegment` or `closeSegment` call. -/
def BackupManager.runOp (bm : BackupManager) : BOp → Except String (BackupManager × List BEvent)
  | BOp.openSeg r m s => bm.openSegment r m s
  | BOp.closeSeg m s => .ok (bm.closeSegment m s)

/-- Run a sequence of `openSegment`/`closeSegment` calls; a `DIE` aborts the
whole run. -/
def BackupManager.runOps : BackupManager → List BOp → Except String (BackupManager × List BEvent)
  | bm, [] => .ok (bm, [])
  | bm, op :: rest =>
    match bm.runOp op with
    | .error e => .error e
    | .ok (bm₁, evs) =>
      match bm₁.runOps rest with
      | .error e => .error e
      | .ok (bm₂, evs₂) => .ok (bm₂, evs ++ evs₂)

/-- Whether an operation is a `closeSegment`. -/
def isCloseOp : BOp → Bool
  | BOp.closeSeg _ _ => true
  | BOp.openSeg _ _ _ => false

/-- Whether the last operation of a sequence is a `closeSegment`. -/
def endsWithClose (ops : List BOp) : Bool :=
  match ops.getLast? with
  | some op => isCloseOp op
  | none => false

/-! ### Recovery (src/BackupManager.cc, recover) -/

/-- Modelled from the spec: outcome of a `BackupClient::getRecoveryData`
attempt against one backup (transport and client exceptions become tagged
variants, per the design notes). -/
inductive FetchResult
  | ok
  | transportError
  | clientError
deriving DecidableEq, Repr

/-- Observable steps of `BackupManager::recover`: log statements, fetch
attempts and `recoverSegment` calls, in program order. -/
inductive REvent
  | warnNoId (locator : String)
  | skip (locator : String) (segId : Nat)
  | warnNotBackup (locator : String)
  | corrupt (segId : Nat)
  | attempt (locator : String) (segId : Nat)
  | warnFetchFail (locator : String) (segId : Nat)
  | recoverSeg (segId : Nat)
deriving DecidableEq, Repr

/-- The loop of `BackupManager::recover` (src/BackupManager.cc, lines
114-171).  `sid` is `segmentIdToRecover`, `wasRecovered` as in the source;
`fetch` gives the outcome of `getRecoveryData` on a given locator and
segment id.  The trailing `if` models the corruption check after the
loop. -/
def recoverLoop (fetch : String → Nat → FetchResult) :
    List HostEntry → Nat → Bool → List REvent
  | [], sid, wasRecovered =>
    if wasRecovered then [] else [REvent.corrupt sid]
  | e :: rest, sid, wasRecovered =>
    match e.segment_id with
    | none => REvent.warnNoId e.service_locator :: recoverLoop fetch rest sid wasRecovered
    | some s =>
      if wasRecovered && sid == s then
        REvent.skip e.service_locator s :: recoverLoop fetch rest sid wasRecovered
      else if e.server_type != ServerType.BACKUP then
        REvent.warnNotBackup e.service_locator :: recoverLoop fetch rest sid wasRecovered
      else
        (if wasRecovered then [] else [REvent.corrupt sid]) ++
        REvent.attempt e.service_locator s ::
          (match fetch e.service_locator s with
           | FetchResult.ok => REvent.recoverSeg s :: recoverLoop fetch rest s true
           | FetchResult.transportError =>
             REvent.warnFetchFail e.service_locator s :: recoverLoop fetch rest s false
           | FetchResult.clientError =>
             REvent.warnFetchFail e.service_locator s :: recoverLoop fetch rest s false)

/-- `BackupManager::recover`: walk the backup list once, starting from the
sentinel `segmentIdToRecover = ~0ul` and `wasRecovered = true`. -/
def BackupManager.recover (fetch : String → Nat → FetchResult)
    (backups : List HostEntry) : List REvent :=
  recoverLoop fetch backups (2 ^ 64 - 1) true

/-! ### Characterisation of the selection loop, for the proofs -/

/-- Stream of host indices that `selectLoop` inspects: `random % numHosts`,
with `random` incremented modulo `2 ^ 64` each step. -/
def idxList (numHosts : Nat) : Nat → Nat → List Nat
  | 0, _ => []
  | fuel + 1, random =>
    random % numHosts :: idxList numHosts fuel ((random + 1) % 2 ^ 64)

/-- Take the first `n` BACKUP entries from a stream of host indices,
pairing each chosen index with its locator; `none` if the stream is too
short. -/
def takeBackups (hosts : List HostEntry) : Nat → List Nat → Option (List (Nat × String))
  | 0, _ => some []
  | _ + 1, [] => none
  | n + 1, ix :: rest =>
    let host := hosts.getD ix defaultHost
    if host.server_type = ServerType.BACKUP then
      (takeBackups hosts n rest).map (fun out => (ix, host.service_locator) :: out)
    else
      takeBackups hosts (n + 1) rest

/-- Number of BACKUP entries in a host list, as counted by
`selectOpenHosts`. -/
def countBackups (hosts : List HostEntry) : Nat :=
  hosts.countP (fun entry => entry.server_type == ServerType.BACKUP)

deriving instance DecidableEq for Except

/-- Extract the payload of an `Except` result. -/
def excOk? {ε α : Type} : Except ε α → Option α
  | .ok a => some a
  | .error _ => none

/-- Whether an `Except` result is an error (a `DIE`). -/
def excIsError {ε α : Type} : Except ε α → Bool
  | .ok _ => false
  | .error _ => true

/-! ### Concrete instances used by witnesses and counterexamples -/

/-- A BACKUP host entry with no segment id. -/
def backupHost (loc : String) : HostEntry :=
  ⟨loc, ServerType.BACKUP, none⟩

/-- A MASTER host entry with no segment id. -/
def masterHost (loc : String) : HostEntry :=
  ⟨loc, ServerType.MASTER, none⟩

/-- A recovery server-list entry: a BACKUP holding the given segment. -/
def recEntry (loc : String) (sid : Nat) : HostEntry :=
  ⟨loc, ServerType.BACKUP, some sid⟩

/-- A two-buffer log (capacity 128, segment capacity 64) with no head yet;
buffers live at the aligned addresses 64 and 128. -/
def witnessLog : Log :=
  { logId := 1, logCapacity := 128, segmentCapacity := 64,
    segmentFreeList := [64, 128], nextSegmentId := 0,
    maximumAppendableBytes := 48, head := none, callbackMap := [],
    activeIdMap := [], activeBaseAddressMap := [], backup := true }

/-- The head segment of `exhaustedLog`: nearly full, so that a 48-byte
append does not fit. -/
def fullSeg : Segment :=
  ⟨1, 0, 64, 64, 48, false⟩

/-- A one-buffer log whose only buffer is owned by an almost-full head and
whose free list is empty: the next large append rolls the head and finds
the log full. -/
def exhaustedLog : Log :=
  { logId := 1, logCapacity := 64, segmentCapacity := 64,
    segmentFreeList := [], nextSegmentId := 1,
    maximumAppendableBytes := 48, head := some fullSeg, callbackMap := [],
    activeIdMap := [(0, fullSeg)], activeBaseAddressMap := [(64, fullSeg)],
    backup := true }

/-- A backup manager with two BACKUP hosts and one MASTER, replication
factor two, nothing open. -/
def bmTwoBackups : BackupManager :=
  { coordinator := none,
    hosts := [backupHost "b0", backupHost "b1", masterHost "m0"],
    openHosts := [], replicas := 2, segments := [] }

/-- A backup manager with replication factor zero and an empty host list. -/
def bmZeroReplicas : BackupManager :=
  { coordinator := none, hosts := [], openHosts := [], replicas := 0,
    segments := [] }

/-- A backup manager wanting three replicas but knowing only two BACKUP
hosts. -/
def bmShortBackups : BackupManager :=
  { coordinator := none, hosts := [backupHost "b0", backupHost "b1"],
    openHosts := [], replicas := 3, segments := [] }

/-- A backup manager that still has an open host when `openSegment` is
called again. -/
def bmStillOpen : BackupManager :=
  { coordinator := none, hosts := [backupHost "b0"],
    openHosts := ["b0"], replicas := 1, segments := [] }

/-- A backup manager with a single BACKUP host and replication factor
one. -/
def bmOneBackup : BackupManager :=
  { coordinator := none, hosts := [backupHost "b0"], openHosts := [],
    replicas := 1, segments := [] }

/-- Fetch oracle for the recovery scenario: the first source of segment 7
(backup "b1") fails with a transport error, everything else succeeds. -/
def fetchFirstFails : String → Nat → FetchResult :=
  fun loc _ => if loc == "b1" then FetchResult.transportError else FetchResult.ok

/-- Fetch oracle for which every attempt succeeds. -/
def fetchAllOk : String → Nat → FetchResult :=
  fun _ _ => FetchResult.ok

/-! ### Association-list lemmas -/

theorem mapLookup_insert_self {β : Type} (m : List (Nat × β)) (k : Nat) (v : β) :
    mapLookup (mapInsert m k v) k = some v := by
  simp [mapInsert, mapLookup]

theorem mapLookup_filter_keyNe {β : Type} (k k' : Nat) (h : k' ≠ k) :
    ∀ m : List (Nat × β),
      mapLookup (m.filter (fun kv => kv.1 != k)) k' = mapLookup m k' := by
  intro m
  induction m with
  | nil => rfl
  | cons kv rest ih =>
    by_cases hk : kv.1 = k
    · have h2 : ¬(k = k') := fun hh => h hh.symm
      simp [List.filter_cons, hk, mapLookup, h2, ih]
    · simp only [List.filter_cons]
      have h1 : (kv.1 != k) = true := by simp [hk]
      rw [h1]
      simp only [if_true, mapLookup, ih]

theorem mapLookup_insert_ne {β : Type} (m : List (Nat × β)) (k k' : Nat) (v : β)
    (h : k' ≠ k) : mapLookup (mapInsert m k v) k' = mapLookup m k' := by
  have hk : (k == k') = false := by
    simp
    exact fun hh => h hh.symm
  simp [mapInsert, mapLookup, hk, mapLookup_filter_keyNe k k' h m]

/-! ### Lemmas about the append loop -/

theorem tryAppend_of_headRejects (l : Log) (len : Nat)
    (h : l.headRejects len = true) : l.tryAppend len = none := by
  cases hh : l.head with
  | none => simp [Log.tryAppend, hh]
  | some hd =>
    simp only [Log.headRejects, hh] at h
    cases ha : hd.append len with
    | none => simp [Log.tryAppend, hh, ha]
    | some pr => rw [ha] at h; simp at h

theorem closeHeadStep_frame (l : Log) :
    (l.closeHeadStep).1.head = none ∧
    (l.closeHeadStep).1.segmentFreeList = l.segmentFreeList ∧
    (l.closeHeadStep).1.segmentCapacity = l.segmentCapacity ∧
    (l.closeHeadStep).1.logId = l.logId ∧
    (l.closeHeadStep).1.nextSegmentId = l.nextSegmentId ∧
    (l.closeHeadStep).1.backup = l.backup ∧
    (l.closeHeadStep).1.maximumAppendableBytes = l.maximumAppendableBytes := by
  cases h : l.head <;> simp [Log.closeHeadStep, h]

theorem fresh_append_ok (logId sid b C len : Nat)
    (hfit : entryHeaderBytes + len + footerBytes ≤ C) :
    (Segment.make logId sid b C).append len =
      some (b + entryHeaderBytes,
            { logId := logId, segId := sid, baseAddr := b, capacity := C,
              tail := entryHeaderBytes + len, closed := false }) := by
  simp [Segment.make, Segment.append]
  omega

/-- When a fresh segment can hold the payload and the free list is not
empty, the retry loop succeeds within two iterations. -/
theorem appendLoop_ok_of_fit (l : Log) (len : Nat)
    (hfit : entryHeaderBytes + len + footerBytes ≤ l.segmentCapacity)
    (hfree : l.segmentFreeList ≠ []) :
    (Log.appendLoop len (l.segmentFreeList.length + 1) l).1.isSome = true ∧
    (Log.appendLoop len (l.segmentFreeList.length + 1) l).2.2.2 ≤ 2 := by
  obtain ⟨m, hm⟩ : ∃ m, l.segmentFreeList.length = m + 1 := by
    cases hl : l.segmentFreeList with
    | nil => exact absurd hl hfree
    | cons a as => exact ⟨as.length, by simp⟩
  rw [hm]
  cases htry : l.tryAppend len with
  | some pr =>
    obtain ⟨p, l₁, evs⟩ := pr
    simp [Log.appendLoop, htry]
  | none =>
    obtain ⟨hch, hcf, hcc, hcl, hcn, hcb, hcm⟩ := closeHeadStep_frame l
    have hlast : ∃ b, (l.closeHeadStep).1.segmentFreeList.getLast? = some b := by
      rw [hcf]
      cases hl : l.segmentFreeList with
      | nil => exact absurd hl hfree
      | cons a as => exact ⟨(a :: as).getLast (by simp), List.getLast?_eq_getLast _ _⟩
    obtain ⟨b, hb⟩ := hlast
    have hfit2 :
        (Segment.make (l.closeHeadStep).1.logId (l.closeHeadStep).1.nextSegmentId b
            (l.closeHeadStep).1.segmentCapacity).append len =
          some (b + entryHeaderBytes,
                { logId := (l.closeHeadStep).1.logId,
                  segId := (l.closeHeadStep).1.nextSegmentId, baseAddr := b,
                  capacity := (l.closeHeadStep).1.segmentCapacity,
                  tail := entryHeaderBytes + len, closed := false }) :=
      fresh_append_ok _ _ _ _ _ (by rw [hcc]; exact hfit)
    simp only [Log.appendLoop, htry, hb, Log.rollHead, LogCleaner.clean]
    simp [Log.tryAppend, hfit2]

/-- C2 claim theorem: with a payload within `maximumAppendableBytes` and a
consistent `maximumAppendableBytes` (a fresh segment accepts any payload up
to it), the `append` retry loop runs at most two iterations on any
successful call; and when a new head is needed while the free list is
empty, `append` returns NULL (log-full) after a single iteration, without
looping. -/
theorem log_append_loop_bound (l : Log) (len : Nat)
    (hlen : len ≤ l.maximumAppendableBytes)
    (hmax : l.maximumAppendableBytes + entryHeaderBytes + footerBytes ≤ l.segmentCapacity) :
    (∀ p, (Log.append l len).1 = LogAppendResult.ok p → (Log.append l len).2.2.2 ≤ 2) ∧
    (l.headRejects len = true → l.segmentFreeList = [] →
      (Log.append l len).1 = LogAppendResult.full ∧ (Log.append l len).2.2.2 = 1) :=
  by
  have hguard : ¬(l.maximumAppendableBytes < len) := by omega
  constructor
  · intro p hp
    by_cases hfree : l.segmentFreeList = []
    · obtain ⟨hch, hcf, _, _, _, _, _⟩ := closeHeadStep_frame l
      have hempty : (l.closeHeadStep).1.segmentFreeList.getLast? = none := by
        rw [hcf, hfree]; rfl
      cases htry : l.tryAppend len with
      | some pr =>
        obtain ⟨q, l₁, evs⟩ := pr
        simp [Log.append, hguard, hfree, Log.appendLoop, htry]
      | none =>
        simp [Log.append, hguard, hfree, Log.appendLoop, htry, hempty]
    · obtain ⟨hsome, hn⟩ := appendLoop_ok_of_fit l len (by omega) hfree
      simp only [Log.append, if_neg hguard]
      exact hn
  · intro hrej hfree
    obtain ⟨hch, hcf, _, _, _, _, _⟩ := closeHeadStep_frame l
    have hempty : (l.closeHeadStep).1.segmentFreeList.getLast? = none := by
      rw [hcf, hfree]; rfl
    simp [Log.append, hguard, hfree, Log.appendLoop,
      tryAppend_of_headRejects l len hrej, hempty]

theorem log_append_loop_bound_witness :
    (5 ≤ witnessLog.maximumAppendableBytes ∧
      witnessLog.maximumAppendableBytes + entryHeaderBytes + footerBytes ≤
        witnessLog.segmentCapacity ∧
      (Log.append witnessLog 5).1 = LogAppendResult.ok 136 ∧
      (Log.append witnessLog 5).2.2.2 ≤ 2) ∧
    (exhaustedLog.headRejects 48 = true ∧ exhaustedLog.segmentFreeList = [] ∧
      (Log.append exhaustedLog 48).1 = LogAppendResult.full ∧
      (Log.append exhaustedLog 48).2.2.2 = 1) :=
  ⟨⟨by decide, by decide, by decide,
    (log_append_loop_bound witnessLog 5 (by decide) (by decide)).1 136 (by decide)⟩,
   by decide, by decide,
   (log_append_loop_bound exhaustedLog 48 (by decide) (by decide)).2 (by decide) (by decide)⟩

/-- C7 claim theorem: `append` throws the capacity LogException exactly when
the length exceeds `maximumAppendableBytes`; the throw leaves the log
unchanged and emits nothing; an append of exactly `maximumAppendableBytes`
succeeds when a free buffer is available (and the recorded
`maximumAppendableBytes` is consistent with the segment framing); an append
of `maximumAppendableBytes + 1` throws. -/
theorem log_append_capacity_boundary (l : Log) (len : Nat)
    (hfree : l.segmentFreeList ≠ [])
    (hmax : l.maximumAppendableBytes + entryHeaderBytes + footerBytes ≤ l.segmentCapacity) :
    ((Log.append l len).1 = LogAppendResult.err ↔ l.maximumAppendableBytes < len) ∧
    ((Log.append l len).1 = LogAppendResult.err →
      (Log.append l len).2.1 = l ∧ (Log.append l len).2.2.1 = []) ∧
    (len = l.maximumAppendableBytes →
      ∃ p, (Log.append l len).1 = LogAppendResult.ok p) ∧
    (Log.append l (l.maximumAppendableBytes + 1)).1 = LogAppendResult.err := by
  refine ⟨?_, ?_, ?_, ?_⟩
  · by_cases hguard : l.maximumAppendableBytes < len
    · simp [Log.append, hguard]
    · simp only [Log.append, if_neg hguard]
      cases hres : (Log.appendLoop len (l.segmentFreeList.length + 1) l).1 <;>
        simp [hres, hguard]
  · intro herr
    by_cases hguard : l.maximumAppendableBytes < len
    · simp [Log.append, hguard]
    · exfalso
      simp only [Log.append, if_neg hguard] at herr
      cases hres : (Log.appendLoop len (l.segmentFreeList.length + 1) l).1 <;>
        simp [hres] at herr
  · intro hlen
    have hguard : ¬(l.maximumAppendableBytes < len) := by omega
    obtain ⟨hsome, _⟩ := appendLoop_ok_of_fit l len (by omega) hfree
    simp only [Log.append, if_neg hguard]
    cases hres : (Log.appendLoop len (l.segmentFreeList.length + 1) l).1 with
    | none => rw [hres] at hsome; simp at hsome
    | some p => exact ⟨p, by simp [hres]⟩
  · simp [Log.append]

theorem log_append_capacity_boundary_witness :
    witnessLog.segmentFreeList ≠ [] ∧
    witnessLog.maximumAppendableBytes + entryHeaderBytes + footerBytes ≤
      witnessLog.segmentCapacity ∧
    (48 = witnessLog.maximumAppendableBytes ∧
      ∃ p, (Log.append witnessLog 48).1 = LogAppendResult.ok p) ∧
    (Log.append witnessLog (witnessLog.maximumAppendableBytes + 1)).1 =
      LogAppendResult.err ∧
    ((Log.append witnessLog 49).1 = LogAppendResult.err ↔
      witnessLog.maximumAppendableBytes < 49) :=
  ⟨by decide, by decide,
   ⟨by decide,
    (log_append_capacity_boundary witnessLog 48 (by decide) (by decide)).2.2.1 (by decide)⟩,
   (log_append_capacity_boundary witnessLog 48 (by decide) (by decide)).2.2.2,
   (log_append_capacity_boundary witnessLog 49 (by decide) (by decide)).1⟩

/-- C8 claim theorem: the first `registerType` for a type stores the
(callback, cookie) pair in the registry; any later `registerType` with the
same type throws and leaves the registry (indeed the whole log)
unchanged. -/
theorem log_registerType_one_shot (l : Log) (t cb ck cb' ck' : Nat) :
    (mapLookup l.callbackMap t = none →
      (l.registerType t cb ck).1 = RegOutcome.ok ∧
      mapLookup (l.registerType t cb ck).2.callbackMap t = some (cb, ck) ∧
      ((l.registerType t cb ck).2.registerType t cb' ck').1 = RegOutcome.err ∧
      ((l.registerType t cb ck).2.registerType t cb' ck').2 =
        (l.registerType t cb ck).2) ∧
    (∀ v, mapLookup l.callbackMap t = some v →
      (l.registerType t cb ck).1 = RegOutcome.err ∧
      (l.registerType t cb ck).2 = l) := by
  constructor
  · intro hnone
    simp [Log.registerType, hnone, mapLookup_insert_self]
  · intro v hv
    simp [Log.registerType, hv]

theorem log_registerType_one_shot_witness :
    (mapLookup witnessLog.callbackMap 3 = none ∧
      (witnessLog.registerType 3 10 11).1 = RegOutcome.ok ∧
      mapLookup (witnessLog.registerType 3 10 11).2.callbackMap 3 = some (10, 11) ∧
      ((witnessLog.registerType 3 10 11).2.registerType 3 12 13).1 = RegOutcome.err ∧
      ((witnessLog.registerType 3 10 11).2.registerType 3 12 13).2 =
        (witnessLog.registerType 3 10 11).2) ∧
    (mapLookup (witnessLog.registerType 3 10 11).2.callbackMap 3 = some (10, 11) ∧
      ((witnessLog.registerType 3 10 11).2.registerType 3 14 15).1 = RegOutcome.err ∧
      ((witnessLog.registerType 3 10 11).2.registerType 3 14 15).2 =
        (witnessLog.registerType 3 10 11).2) :=
  ⟨⟨by decide,
    (log_registerType_one_shot witnessLog 3 10 11 12 13).1 (by decide)⟩,
   by decide,
   (log_registerType_one_shot (witnessLog.registerType 3 10 11).2 3 14 15 0 0).2
     (10, 11) (by decide)⟩

/-! ### Step lemmas for the append loop -/

theorem appendLoop_succ_some (len fuel : Nat) (l : Log) (p : Nat) (l₁ : Log)
    (evs : List LEvent) (htry : l.tryAppend len = some (p, l₁, evs)) :
    Log.appendLoop len (fuel + 1) l = (some p, l₁, evs, 1) := by
  simp only [Log.appendLoop, htry]

theorem appendLoop_succ_none_none (len fuel : Nat) (l : Log)
    (htry : l.tryAppend len = none)
    (hb : (l.closeHeadStep).1.segmentFreeList.getLast? = none) :
    Log.appendLoop len (fuel + 1) l =
      (none, (l.closeHeadStep).1, (l.closeHeadStep).2, 1) := by
  simp only [Log.appendLoop, htry, hb]

theorem appendLoop_succ_none_some (len fuel : Nat) (l : Log) (b : Nat)
    (htry : l.tryAppend len = none)
    (hb : (l.closeHeadStep).1.segmentFreeList.getLast? = some b) :
    Log.appendLoop len (fuel + 1) l =
      ((Log.appendLoop len fuel (((l.closeHeadStep).1).rollHead b).1).1,
       (Log.appendLoop len fuel (((l.closeHeadStep).1).rollHead b).1).2.1,
       (l.closeHeadStep).2 ++ (((l.closeHeadStep).1).rollHead b).2.2 ++
         (Log.appendLoop len fuel (((l.closeHeadStep).1).rollHead b).1).2.2.1,
       (Log.appendLoop len fuel (((l.closeHeadStep).1).rollHead b).1).2.2.2 + 1) := by
  simp only [Log.appendLoop, htry, hb, LogCleaner.clean]

theorem closeHeadStep_of_head_none (l : Log) (hh : l.head = none) :
    l.closeHeadStep = (l, []) := by
  simp [Log.closeHeadStep, hh]

theorem closeHeadStep_of_head_some (l : Log) (h : Segment) (hh : l.head = some h) :
    (l.closeHeadStep).1.activeIdMap = mapInsert l.activeIdMap h.segId h.close ∧
    (l.closeHeadStep).2 =
      LEvent.segClosed h.segId ::
        (if l.backup then [LEvent.closeSeg h.segId] else []) := by
  simp [Log.closeHeadStep, hh]

theorem rollHead_fields (l : Log) (b : Nat) :
    (l.rollHead b).1.head =
      some (Segment.make l.logId l.nextSegmentId b l.segmentCapacity) ∧
    (l.rollHead b).1.segmentFreeList = l.segmentFreeList.dropLast ∧
    (l.rollHead b).1.nextSegmentId = l.nextSegmentId + 1 ∧
    (l.rollHead b).1.activeIdMap =
      mapInsert l.activeIdMap l.nextSegmentId
        (Segment.make l.logId l.nextSegmentId b l.segmentCapacity) ∧
    (l.rollHead b).1.segmentCapacity = l.segmentCapacity ∧
    (l.rollHead b).1.backup = l.backup ∧
    (l.rollHead b).1.activeBaseAddressMap =
      mapInsert l.activeBaseAddressMap b
        (Segment.make l.logId l.nextSegmentId b l.segmentCapacity) ∧
    (l.rollHead b).1.maximumAppendableBytes = l.maximumAppendableBytes ∧
    (l.rollHead b).1.logId = l.logId := by
  refine ⟨rfl, rfl, rfl, rfl, rfl, rfl, rfl, rfl, rfl⟩

theorem setHead_fields (l : Log) (h : Segment) :
    (l.setHead h).head = some h ∧
    (l.setHead h).nextSegmentId = l.nextSegmentId ∧
    (l.setHead h).activeIdMap = mapInsert l.activeIdMap h.segId h ∧
    (l.setHead h).activeBaseAddressMap =
      mapInsert l.activeBaseAddressMap h.baseAddr h ∧
    (l.setHead h).segmentCapacity = l.segmentCapacity ∧
    (l.setHead h).segmentFreeList = l.segmentFreeList := by
  refine ⟨rfl, rfl, rfl, rfl, rfl, rfl⟩

theorem tryAppend_none_of_head_none (l : Log) (len : Nat) (hh : l.head = none) :
    l.tryAppend len = none := by
  simp [Log.tryAppend, hh]

theorem tryAppend_some (l : Log) (len p : Nat) (l₁ : Log) (evs : List LEvent)
    (htry : l.tryAppend len = some (p, l₁, evs)) :
    ∃ h h', l.head = some h ∧ h.append len = some (p, h') ∧ l₁ = l.setHead h' ∧
      evs = (if l.backup then [LEvent.writeSeg h'.segId] else []) := by
  cases hh : l.head with
  | none => rw [tryAppend_none_of_head_none l len hh] at htry; exact absurd htry (by simp)
  | some hd =>
    cases ha : hd.append len with
    | none => simp [Log.tryAppend, hh, ha] at htry
    | some pr2 =>
      obtain ⟨q, h'⟩ := pr2
      have hcomp : l.tryAppend len =
          some (q, l.setHead h',
                if l.backup then [LEvent.writeSeg h'.segId] else []) := by
        simp [Log.tryAppend, hh, ha]
      rw [hcomp] at htry
      simp only [Option.some.injEq, Prod.mk.injEq] at htry
      obtain ⟨hq, hl, he⟩ := htry
      subst hq
      exact ⟨hd, h', rfl, ha, hl.symm, he.symm⟩

theorem segment_append_some (s s' : Segment) (p len : Nat)
    (h : s.append len = some (p, s')) :
    s'.segId = s.segId ∧ s'.baseAddr = s.baseAddr ∧ s'.capacity = s.capacity ∧
    p = s.baseAddr + s.tail + entryHeaderBytes ∧
    s.tail + entryHeaderBytes + len + footerBytes ≤ s.capacity ∧
    s'.tail = s.tail + entryHeaderBytes + len ∧ s'.closed = false := by
  unfold Segment.append at h
  by_cases hc : s.closed
  · simp [hc] at h
  · simp only [hc, if_false, Bool.false_eq_true] at h
    by_cases hf : s.tail + entryHeaderBytes + len + footerBytes ≤ s.capacity
    · rw [if_pos hf] at h
      obtain ⟨hp, hs⟩ := Prod.mk.injEq .. ▸ Option.some.injEq .. ▸ h
      subst hs
      exact ⟨rfl, rfl, rfl, hp.symm, hf, rfl, rfl⟩
    · rw [if_neg hf] at h
      exact absurd h (by simp)

/-- The head, if any, is absent after the loop when the loop reports the
log full. -/
theorem appendLoop_full_head_none (len : Nat) :
    ∀ fuel l, l.segmentFreeList.length < fuel →
      (Log.appendLoop len fuel l).1 = none →
      (Log.appendLoop len fuel l).2.1.head = none := by
  intro fuel
  induction fuel with
  | zero => intro l hl; omega
  | succ fuel ih =>
    intro l hl hnone
    cases htry : l.tryAppend len with
    | some pr =>
      obtain ⟨p, l₁, evs⟩ := pr
      rw [appendLoop_succ_some len fuel l p l₁ evs htry] at hnone
      simp at hnone
    | none =>
      obtain ⟨hch, hcf, _, _, _, _, _⟩ := closeHeadStep_frame l
      cases hb : (l.closeHeadStep).1.segmentFreeList.getLast? with
      | none =>
        rw [appendLoop_succ_none_none len fuel l htry hb]
        exact hch
      | some b =>
        rw [appendLoop_succ_none_some len fuel l b htry hb]
        rw [appendLoop_succ_none_some len fuel l b htry hb] at hnone
        simp only at hnone ⊢
        apply ih
        · obtain ⟨_, hfl, _⟩ := rollHead_fields (l.closeHeadStep).1 b
          rw [hfl, hcf]
          have hne : l.segmentFreeList ≠ [] := by
            intro hemp
            rw [hcf, hemp] at hb
            simp at hb
          have : 0 < l.segmentFreeList.length := by
            cases hl2 : l.segmentFreeList with
            | nil => exact absurd hl2 hne
            | cons a as => simp
          rw [List.length_dropLast]
          omega
        · exact hnone

/-- The loop never decreases `nextSegmentId`. -/
theorem appendLoop_nsid_mono (len : Nat) :
    ∀ fuel l, l.nextSegmentId ≤ (Log.appendLoop len fuel l).2.1.nextSegmentId := by
  intro fuel
  induction fuel with
  | zero => intro l; exact Nat.le_refl _
  | succ fuel ih =>
    intro l
    cases htry : l.tryAppend len with
    | some pr =>
      obtain ⟨p, l₁, evs⟩ := pr
      rw [appendLoop_succ_some len fuel l p l₁ evs htry]
      obtain ⟨h, h', hh, ha, hl₁, hevs⟩ := tryAppend_some l len p l₁ evs htry
      have heq : l₁.nextSegmentId = l.nextSegmentId := by
        rw [hl₁]; exact (setHead_fields l h').2.1
      show l.nextSegmentId ≤ l₁.nextSegmentId
      omega
    | none =>
      obtain ⟨_, _, _, _, hcn, _, _⟩ := closeHeadStep_frame l
      cases hb : (l.closeHeadStep).1.segmentFreeList.getLast? with
      | none =>
        rw [appendLoop_succ_none_none len fuel l htry hb]
        show l.nextSegmentId ≤ (l.closeHeadStep).1.nextSegmentId
        omega
      | some b =>
        rw [appendLoop_succ_none_some len fuel l b htry hb]
        show l.nextSegmentId ≤
          (Log.appendLoop len fuel (((l.closeHeadStep).1).rollHead b).1).2.1.nextSegmentId
        have h1 := ih (((l.closeHeadStep).1).rollHead b).1
        obtain ⟨_, _, hn, _⟩ := rollHead_fields (l.closeHeadStep).1 b
        omega

/-- The loop never disturbs `activeIdMap` entries whose id is below every
id it can allocate or rewrite. -/
theorem appendLoop_frame_idMap (len : Nat) :
    ∀ fuel l B, (∀ h₀, l.head = some h₀ → B ≤ h₀.segId) → B ≤ l.nextSegmentId →
      ∀ k, k < B →
        mapLookup (Log.appendLoop len fuel l).2.1.activeIdMap k =
          mapLookup l.activeIdMap k := by
  intro fuel
  induction fuel with
  | zero => intro l B _ _ k _; rfl
  | succ fuel ih =>
    intro l B hB hBn k hk
    cases htry : l.tryAppend len with
    | some pr =>
      obtain ⟨p, l₁, evs⟩ := pr
      rw [appendLoop_succ_some len fuel l p l₁ evs htry]
      obtain ⟨h, h', hh, ha, hl₁, _⟩ := tryAppend_some l len p l₁ evs htry
      obtain ⟨hsid, _⟩ := segment_append_some h h' p len ha
      show mapLookup l₁.activeIdMap k = mapLookup l.activeIdMap k
      rw [hl₁, (setHead_fields l h').2.2.1]
      apply mapLookup_insert_ne
      have := hB h hh
      omega
    | none =>
      have step2 : mapLookup (l.closeHeadStep).1.activeIdMap k =
          mapLookup l.activeIdMap k := by
        cases hh : l.head with
        | none => rw [closeHeadStep_of_head_none l hh]
        | some h =>
          rw [(closeHeadStep_of_head_some l h hh).1]
          apply mapLookup_insert_ne
          have := hB h hh
          omega
      cases hb : (l.closeHeadStep).1.segmentFreeList.getLast? with
      | none =>
        rw [appendLoop_succ_none_none len fuel l htry hb]
        exact step2
      | some b =>
        rw [appendLoop_succ_none_some len fuel l b htry hb]
        show mapLookup
            (Log.appendLoop len fuel
              (((l.closeHeadStep).1).rollHead b).1).2.1.activeIdMap k =
          mapLookup l.activeIdMap k
        obtain ⟨hrh, _, hrn, hrmap, _⟩ := rollHead_fields (l.closeHeadStep).1 b
        obtain ⟨_, _, _, _, hcn, _, _⟩ := closeHeadStep_frame l
        have hhead : ∀ h₀, (((l.closeHeadStep).1).rollHead b).1.head = some h₀ →
            B ≤ h₀.segId := by
          intro h₀ hh₀
          rw [hrh] at hh₀
          simp only [Option.some.injEq] at hh₀
          rw [← hh₀]
          show B ≤ (l.closeHeadStep).1.nextSegmentId
          omega
        have hnsid : B ≤ (((l.closeHeadStep).1).rollHead b).1.nextSegmentId := by
          rw [hrn, hcn]; omega
        have step1 : mapLookup (((l.closeHeadStep).1).rollHead b).1.activeIdMap k =
            mapLookup (l.closeHeadStep).1.activeIdMap k := by
          rw [hrmap]
          apply mapLookup_insert_ne
          omega
        rw [ih (((l.closeHeadStep).1).rollHead b).1 B hhead hnsid k hk, step1, step2]

/-- When the head exists and rejects the payload, the close events of that
head appear in the loop trace. -/
theorem appendLoop_close_events (len fuel : Nat) (l : Log) (h : Segment)
    (hh : l.head = some h) (htry : l.tryAppend len = none) :
    LEvent.segClosed h.segId ∈ (Log.appendLoop len (fuel + 1) l).2.2.1 ∧
    (l.backup = true →
      LEvent.closeSeg h.segId ∈ (Log.appendLoop len (fuel + 1) l).2.2.1) := by
  obtain ⟨hmap, hevs⟩ := closeHeadStep_of_head_some l h hh
  cases hb : (l.closeHeadStep).1.segmentFreeList.getLast? with
  | none =>
    rw [appendLoop_succ_none_none len fuel l htry hb]
    show LEvent.segClosed h.segId ∈ (l.closeHeadStep).2 ∧ _
    rw [hevs]
    exact ⟨by simp, fun hbk => by simp [hbk]⟩
  | some b =>
    rw [appendLoop_succ_none_some len fuel l b htry hb]
    show LEvent.segClosed h.segId ∈
        (l.closeHeadStep).2 ++ (((l.closeHeadStep).1).rollHead b).2.2 ++ _ ∧ _
    rw [hevs]
    exact ⟨by simp, fun hbk => by simp [hbk]⟩

/-- A successful append on a log without a head allocates at least one new
segment id. -/
theorem append_ok_nsid_increases (l : Log) (len : Nat) (hh : l.head = none) :
    ∀ q, (Log.append l len).1 = LogAppendResult.ok q →
      l.nextSegmentId < (Log.append l len).2.1.nextSegmentId := by
  intro q hq
  by_cases hguard : l.maximumAppendableBytes < len
  · simp [Log.append, hguard] at hq
  · have hstate : (Log.append l len).2.1 =
        (Log.appendLoop len (l.segmentFreeList.length + 1) l).2.1 := by
      simp only [Log.append, if_neg hguard]
    have hsome : (Log.appendLoop len (l.segmentFreeList.length + 1) l).1.isSome = true := by
      simp only [Log.append, if_neg hguard] at hq
      cases hres : (Log.appendLoop len (l.segmentFreeList.length + 1) l).1 with
      | none => rw [hres] at hq; simp at hq
      | some p => simp [hres]
    have htry := tryAppend_none_of_head_none l len hh
    rw [hstate]
    cases hb : (l.closeHeadStep).1.segmentFreeList.getLast? with
    | none =>
      rw [appendLoop_succ_none_none len l.segmentFreeList.length l htry hb] at hsome
      simp at hsome
    | some b =>
      rw [appendLoop_succ_none_some len l.segmentFreeList.length l b htry hb]
      show l.nextSegmentId <
        (Log.appendLoop len l.segmentFreeList.length
          (((l.closeHeadStep).1).rollHead b).1).2.1.nextSegmentId
      have hmono := appendLoop_nsid_mono len l.segmentFreeList.length
        (((l.closeHeadStep).1).rollHead b).1
      obtain ⟨_, _, hrn, _⟩ := rollHead_fields (l.closeHeadStep).1 b
      obtain ⟨_, _, _, _, hcn, _, _⟩ := closeHeadStep_frame l
      omega

/-- C9 claim theorem: when `append` returns NULL (log full) the head
reference has been set to null; if a head existed at entry it was closed
first (`Segment::close` ran, and with a backup attached the replica close
notification was issued) and it remains in `activeIdMap` as a closed
segment; and a subsequent successful `append` necessarily allocates a new
segment (the id counter advances). -/
theorem log_append_full_closes_head (l : Log) (len : Nat)
    (hids : l.headIdOk = true)
    (hfull : (Log.append l len).1 = LogAppendResult.full) :
    (Log.append l len).2.1.head = none ∧
    (∀ h, l.head = some h →
      LEvent.segClosed h.segId ∈ (Log.append l len).2.2.1 ∧
      (l.backup = true → LEvent.closeSeg h.segId ∈ (Log.append l len).2.2.1) ∧
      mapLookup (Log.append l len).2.1.activeIdMap h.segId = some h.close) ∧
    (∀ len' q, ((Log.append l len).2.1.append len').1 = LogAppendResult.ok q →
      (Log.append l len).2.1.nextSegmentId <
        ((Log.append l len).2.1.append len').2.1.nextSegmentId) := by
  by_cases hguard : l.maximumAppendableBytes < len
  · rw [show (Log.append l len).1 = LogAppendResult.err by simp [Log.append, hguard]]
      at hfull
    exact absurd hfull (by simp)
  · have hstate : (Log.append l len).2 =
        (Log.appendLoop len (l.segmentFreeList.length + 1) l).2 := by
      simp only [Log.append, if_neg hguard]
    have hloopnone : (Log.appendLoop len (l.segmentFreeList.length + 1) l).1 = none := by
      simp only [Log.append, if_neg hguard] at hfull
      cases hres : (Log.appendLoop len (l.segmentFreeList.length + 1) l).1 with
      | none => rfl
      | some p => rw [hres] at hfull; simp at hfull
    have hheadnone : (Log.append l len).2.1.head = none := by
      rw [show (Log.append l len).2.1 =
            (Log.appendLoop len (l.segmentFreeList.length + 1) l).2.1 from
          congrArg Prod.fst hstate]
      exact appendLoop_full_head_none len (l.segmentFreeList.length + 1) l
        (by omega) hloopnone
    refine ⟨hheadnone, ?_, ?_⟩
    · intro h hh
      have htry : l.tryAppend len = none := by
        cases htry : l.tryAppend len with
        | none => rfl
        | some pr =>
          obtain ⟨p, l₁, evs⟩ := pr
          rw [appendLoop_succ_some len l.segmentFreeList.length l p l₁ evs htry]
            at hloopnone
          simp at hloopnone
      have hsid : h.segId < l.nextSegmentId := by
        simp only [Log.headIdOk, hh, decide_eq_true_eq] at hids
        exact hids
      obtain ⟨hev1, hev2⟩ :=
        appendLoop_close_events len l.segmentFreeList.length l h hh htry
      have hevents : (Log.append l len).2.2.1 =
          (Log.appendLoop len (l.segmentFreeList.length + 1) l).2.2.1 := by
        rw [hstate]
      refine ⟨by rw [hevents]; exact hev1, fun hbk => by rw [hevents]; exact hev2 hbk, ?_⟩
      have hmapclose := (closeHeadStep_of_head_some l h hh).1
      have hstate1 : (Log.append l len).2.1 =
          (Log.appendLoop len (l.segmentFreeList.length + 1) l).2.1 :=
        congrArg Prod.fst hstate
      rw [hstate1]
      cases hb : (l.closeHeadStep).1.segmentFreeList.getLast? with
      | none =>
        rw [appendLoop_succ_none_none len l.segmentFreeList.length l htry hb]
        show mapLookup (l.closeHeadStep).1.activeIdMap h.segId = some h.close
        rw [hmapclose]
        exact mapLookup_insert_self _ _ _
      | some b =>
        rw [appendLoop_succ_none_some len l.segmentFreeList.length l b htry hb]
        show mapLookup
            (Log.appendLoop len l.segmentFreeList.length
              (((l.closeHeadStep).1).rollHead b).1).2.1.activeIdMap h.segId =
          some h.close
        obtain ⟨hrh, _, hrn, hrmap, _⟩ := rollHead_fields (l.closeHeadStep).1 b
        obtain ⟨_, _, _, _, hcn, _, _⟩ := closeHeadStep_frame l
        have hhead : ∀ h₀, (((l.closeHeadStep).1).rollHead b).1.head = some h₀ →
            l.nextSegmentId ≤ h₀.segId := by
          intro h₀ hh₀
          rw [hrh] at hh₀
          simp only [Option.some.injEq] at hh₀
          rw [← hh₀]
          show l.nextSegmentId ≤ (l.closeHeadStep).1.nextSegmentId
          omega
        have hnsid : l.nextSegmentId ≤ (((l.closeHeadStep).1).rollHead b).1.nextSegmentId := by
          rw [hrn, hcn]; omega
        rw [appendLoop_frame_idMap len l.segmentFreeList.length
          (((l.closeHeadStep).1).rollHead b).1 l.nextSegmentId hhead hnsid h.segId hsid]
        rw [hrmap]
        rw [mapLookup_insert_ne _ _ _ _ (by omega)]
        rw [hmapclose]
        exact mapLookup_insert_self _ _ _
    · intro len' q hq
      exact append_ok_nsid_increases (Log.append l len).2.1 len' hheadnone q hq

theorem log_append_full_closes_head_witness :
    exhaustedLog.headIdOk = true ∧
    (Log.append exhaustedLog 48).1 = LogAppendResult.full ∧
    (Log.append exhaustedLog 48).2.1.head = none ∧
    (LEvent.segClosed fullSeg.segId ∈ (Log.append exhaustedLog 48).2.2.1 ∧
      (exhaustedLog.backup = true →
        LEvent.closeSeg fullSeg.segId ∈ (Log.append exhaustedLog 48).2.2.1) ∧
      mapLookup (Log.append exhaustedLog 48).2.1.activeIdMap fullSeg.segId =
        some fullSeg.close) :=
  ⟨by decide, by decide,
   (log_append_full_closes_head exhaustedLog 48 (by decide) (by decide)).1,
   (log_append_full_closes_head exhaustedLog 48 (by decide) (by decide)).2.1
     fullSeg (by decide)⟩

/-! ### Pointer lookup after append (C1) -/

theorem aligned_base_recover (base off C : Nat) (hA : base % C = 0) (hoff : off < C) :
    (base + off) - (base + off) % C = base := by
  obtain ⟨k, hk⟩ := Nat.dvd_of_mod_eq_zero hA
  subst hk
  rw [Nat.mul_add_mod, Nat.mod_eq_of_lt hoff]
  omega

theorem wf_facts (l : Log) (hwf : l.wf = true) :
    0 < l.segmentCapacity ∧
    (∀ b ∈ l.segmentFreeList, b % l.segmentCapacity = 0) ∧
    (∀ h, l.head = some h →
      h.capacity = l.segmentCapacity ∧ h.baseAddr % l.segmentCapacity = 0 ∧
      mapLookup l.activeBaseAddressMap h.baseAddr = some h) := by
  simp only [Log.wf, Bool.and_eq_true, decide_eq_true_eq, List.all_eq_true,
    beq_iff_eq] at hwf
  obtain ⟨⟨h1, h2⟩, h3⟩ := hwf
  refine ⟨h1, fun b hb => by simpa using h2 b hb, ?_⟩
  intro h hh
  rw [hh] at h3
  simp only [Bool.and_eq_true, beq_iff_eq] at h3
  exact ⟨h3.1.1, h3.1.2, h3.2⟩

theorem rollHead_wf (l : Log) (b : Nat) (hwf : l.wf = true)
    (hbmem : b ∈ l.segmentFreeList) :
    (((l.closeHeadStep).1).rollHead b).1.wf = true := by
  obtain ⟨hC, hfl, _⟩ := wf_facts l hwf
  obtain ⟨hrh, hrf, hrn, hrm, hrc, hrb2, hrbm, hrmx, hrl⟩ :=
    rollHead_fields (l.closeHeadStep).1 b
  obtain ⟨_, hcf, hcc, _, _, _, _⟩ := closeHeadStep_frame l
  simp only [Log.wf, hrh, Bool.and_eq_true, decide_eq_true_eq, List.all_eq_true,
    beq_iff_eq]
  refine ⟨⟨?_, ?_⟩, ⟨?_, ?_⟩, ?_⟩
  · rw [hrc, hcc]; exact hC
  · intro x hx
    rw [hrf, hcf] at hx
    rw [hrc, hcc]
    exact hfl x ((List.dropLast_sublist l.segmentFreeList).subset hx)
  · rw [hrc]; rfl
  · show b % (((l.closeHeadStep).1).rollHead b).1.segmentCapacity = 0
    rw [hrc, hcc]
    exact hfl b hbmem
  · rw [hrbm]
    exact mapLookup_insert_self _ _ _

/-- Along any successful run of the retry loop from a well-formed log, the
returned pointer rounds down to the producing head segment and looks up to
its id. -/
theorem appendLoop_ok_pointer (len : Nat) :
    ∀ fuel l, l.wf = true → ∀ p, (Log.appendLoop len fuel l).1 = some p →
      ∃ h', (Log.appendLoop len fuel l).2.1.head = some h' ∧
        (Log.appendLoop len fuel l).2.1.getSegmentBaseAddress p = h'.baseAddr ∧
        (Log.appendLoop len fuel l).2.1.getSegmentId p = Except.ok h'.segId := by
  intro fuel
  induction fuel with
  | zero => intro l _ p hp; simp [Log.appendLoop] at hp
  | succ fuel ih =>
    intro l hwf p hp
    cases htry : l.tryAppend len with
    | some pr =>
      obtain ⟨p₀, l₁, evs⟩ := pr
      rw [appendLoop_succ_some len fuel l p₀ l₁ evs htry] at hp ⊢
      simp only [Option.some.injEq] at hp
      subst hp
      obtain ⟨h, h', hh, ha, hl₁, _⟩ := tryAppend_some l len p₀ l₁ evs htry
      obtain ⟨hsid, hba, hcap, hpeq, hfit, _, _⟩ := segment_append_some h h' p₀ len ha
      obtain ⟨hC, _, hheadf⟩ := wf_facts l hwf
      obtain ⟨hhc, hhalign, _⟩ := hheadf h hh
      obtain ⟨hsh, _, _, hsbm, hsc, _⟩ := setHead_fields l h'
      have hfb : footerBytes = 8 := rfl
      have hoff : h.tail + entryHeaderBytes < l.segmentCapacity := by omega
      have hp2 : p₀ = h.baseAddr + (h.tail + entryHeaderBytes) := by omega
      have hbase : l₁.getSegmentBaseAddress p₀ = h'.baseAddr := by
        rw [hl₁]
        show p₀ - p₀ % (l.setHead h').segmentCapacity = h'.baseAddr
        rw [hsc, hba, hp2]
        exact aligned_base_recover h.baseAddr (h.tail + entryHeaderBytes)
          l.segmentCapacity hhalign hoff
      refine ⟨h', by rw [hl₁]; exact hsh, hbase, ?_⟩
      show l₁.getSegmentId p₀ = Except.ok h'.segId
      unfold Log.getSegmentId
      rw [hbase, hl₁, hsbm, mapLookup_insert_self]
    | none =>
      cases hb : (l.closeHeadStep).1.segmentFreeList.getLast? with
      | none =>
        rw [appendLoop_succ_none_none len fuel l htry hb] at hp
        exact absurd hp (by simp)
      | some b =>
        obtain ⟨_, hcf, _, _, _, _, _⟩ := closeHeadStep_frame l
        have hbmem : b ∈ l.segmentFreeList := by
          rw [← hcf]
          exact List.mem_of_getLast?_eq_some hb
        rw [appendLoop_succ_none_some len fuel l b htry hb] at hp ⊢
        exact ih (((l.closeHeadStep).1).rollHead b).1 (rollHead_wf l b hwf hbmem) p hp

/-- C1 claim theorem: for every pointer returned by `append` on a
well-formed log (all buffers aligned to the segment capacity, the capacity
a power of two), `getSegmentBaseAddress` recovers the base address of the
segment that produced the pointer, and `getSegmentId` returns that
segment's id. -/
theorem log_append_pointer_lookup (l : Log) (len p : Nat)
    (hwf : l.wf = true) (_hpow : ∃ k, l.segmentCapacity = 2 ^ k)
    (hok : (Log.append l len).1 = LogAppendResult.ok p) :
    ∃ h', (Log.append l len).2.1.head = some h' ∧
      (Log.append l len).2.1.getSegmentBaseAddress p = h'.baseAddr ∧
      (Log.append l len).2.1.getSegmentId p = Except.ok h'.segId := by
  by_cases hguard : l.maximumAppendableBytes < len
  · rw [show (Log.append l len).1 = LogAppendResult.err by simp [Log.append, hguard]]
      at hok
    exact absurd hok (by simp)
  · have hstate : (Log.append l len).2.1 =
        (Log.appendLoop len (l.segmentFreeList.length + 1) l).2.1 := by
      simp only [Log.append, if_neg hguard]
    have hloop : (Log.appendLoop len (l.segmentFreeList.length + 1) l).1 = some p := by
      simp only [Log.append, if_neg hguard] at hok
      cases hres : (Log.appendLoop len (l.segmentFreeList.length + 1) l).1 with
      | none => rw [hres] at hok; simp at hok
      | some q => rw [hres] at hok; simp only at hok; simp at hok; rw [hok]
    rw [hstate]
    exact appendLoop_ok_pointer len (l.segmentFreeList.length + 1) l hwf p hloop

theorem log_append_pointer_lookup_witness :
    witnessLog.wf = true ∧ witnessLog.segmentCapacity = 2 ^ 6 ∧
    (Log.append witnessLog 5).1 = LogAppendResult.ok 136 ∧
    ∃ h', (Log.append witnessLog 5).2.1.head = some h' ∧
      (Log.append witnessLog 5).2.1.getSegmentBaseAddress 136 = h'.baseAddr ∧
      (Log.append witnessLog 5).2.1.getSegmentId 136 = Except.ok h'.segId :=
  ⟨by decide, by decide, by decide,
   log_append_pointer_lookup witnessLog 5 136 (by decide) ⟨6, by decide⟩ (by decide)⟩

/-! ### BackupManager fatal cases (C5) -/

/-- C5 claim theorem: with `replicas > 0`, `openSegment` dies when the host
list holds fewer than `replicas` BACKUP entries, and dies when `openHosts`
is not empty; with `replicas == 0` it performs no remote call and leaves
the manager (in particular the empty `openHosts`) untouched. -/
theorem backup_openSegment_fatal_cases (bm : BackupManager)
    (random masterId segId : Nat) :
    (0 < bm.replicas → bm.hosts ≠ [] → countBackups bm.hosts < bm.replicas →
      excIsError (bm.openSegment random masterId segId) = true) ∧
    (0 < bm.replicas → bm.openHosts ≠ [] →
      excIsError (bm.openSegment random masterId segId) = true) ∧
    (bm.replicas = 0 → bm.openHosts = [] →
      bm.openSegment random masterId segId = Except.ok (bm, [])) := by
  refine ⟨?_, ?_, ?_⟩
  · intro hrep hhosts hcount
    have h0 : ¬(bm.replicas = 0) := by omega
    have hne : bm.hosts.isEmpty = false := List.isEmpty_eq_false.mpr hhosts
    rw [countBackups] at hcount
    simp [BackupManager.openSegment, BackupManager.selectOpenHosts, h0, hne,
      hcount, excIsError]
  · intro hrep hopen
    have h0 : ¬(bm.replicas = 0) := by omega
    by_cases hhosts : bm.hosts = []
    · cases hco : bm.coordinator with
      | none =>
        simp [BackupManager.openSegment, BackupManager.selectOpenHosts, h0,
          hhosts, hco, excIsError]
      | some serverList =>
        by_cases hcount :
            serverList.countP (fun entry => entry.server_type == ServerType.BACKUP) <
              bm.replicas
        · simp [BackupManager.openSegment, BackupManager.selectOpenHosts, h0,
            hhosts, hco, hcount, excIsError]
        · have hopen2 : ¬(bm.openHosts.isEmpty = true) := by
            simp only [List.isEmpty_eq_true]
            exact hopen
          simp [BackupManager.openSegment, BackupManager.selectOpenHosts, h0,
            hhosts, hco, hcount, hopen2, excIsError]
    · have hne : bm.hosts.isEmpty = false := List.isEmpty_eq_false.mpr hhosts
      by_cases hcount :
          bm.hosts.countP (fun entry => entry.server_type == ServerType.BACKUP) <
            bm.replicas
      · simp [BackupManager.openSegment, BackupManager.selectOpenHosts, h0,
          hne, hcount, excIsError]
      · have hopen2 : ¬(bm.openHosts.isEmpty = true) := by
          simp only [List.isEmpty_eq_true]
          exact hopen
        simp [BackupManager.openSegment, BackupManager.selectOpenHosts, h0,
          hne, hcount, hopen2, excIsError]
  · intro h0 hopen
    simp [BackupManager.openSegment, BackupManager.selectOpenHosts, h0, hopen]
    rw [← h0, ← hopen]

theorem backup_openSegment_fatal_cases_witness :
    (0 < bmShortBackups.replicas ∧ bmShortBackups.hosts ≠ [] ∧
      countBackups bmShortBackups.hosts < bmShortBackups.replicas ∧
      excIsError (bmShortBackups.openSegment 0 5 7) = true) ∧
    (0 < bmStillOpen.replicas ∧ bmStillOpen.openHosts ≠ [] ∧
      excIsError (bmStillOpen.openSegment 0 5 7) = true) ∧
    (bmZeroReplicas.replicas = 0 ∧ bmZeroReplicas.openHosts = [] ∧
      bmZeroReplicas.openSegment 0 5 7 = Except.ok (bmZeroReplicas, [])) :=
  ⟨⟨by decide, by decide, by decide,
    (backup_openSegment_fatal_cases bmShortBackups 0 5 7).1 (by decide) (by decide)
      (by decide)⟩,
   ⟨by decide, by decide,
    (backup_openSegment_fatal_cases bmStillOpen 0 5 7).2.1 (by decide) (by decide)⟩,
   ⟨by decide, by decide,
    (backup_openSegment_fatal_cases bmZeroReplicas 0 5 7).2.2 (by decide) (by decide)⟩⟩

/-! ### Recovery (C6, C10) -/

/-- C6 claim theorem: the recovery loop handles one list entry at a time, in
order.  An entry naming the segment id just recovered (with the last
attempt successful) is skipped with no fetch; an entry whose fetch fails
with a transport or client error logs a warning and the loop moves on to
the next entry with the segment still unrecovered; a successful fetch
invokes `recoverSegment` with that segment id and marks it recovered (the
loop continues with `wasRecovered = true` for that id). -/
theorem backup_recover_step (fetch : String → Nat → FetchResult)
    (e : HostEntry) (rest : List HostEntry) (sid s : Nat) (w : Bool)
    (hsid : e.segment_id = some s) :
    (sid = s →
      recoverLoop fetch (e :: rest) sid true =
        REvent.skip e.service_locator s :: recoverLoop fetch rest sid true) ∧
    ((w = true → sid ≠ s) → e.server_type = ServerType.BACKUP →
      (fetch e.service_locator s = FetchResult.transportError ∨
        fetch e.service_locator s = FetchResult.clientError) →
      recoverLoop fetch (e :: rest) sid w =
        (if w then [] else [REvent.corrupt sid]) ++
          REvent.attempt e.service_locator s ::
            REvent.warnFetchFail e.service_locator s ::
              recoverLoop fetch rest s false) ∧
    ((w = true → sid ≠ s) → e.server_type = ServerType.BACKUP →
      fetch e.service_locator s = FetchResult.ok →
      recoverLoop fetch (e :: rest) sid w =
        (if w then [] else [REvent.corrupt sid]) ++
          REvent.attempt e.service_locator s ::
            REvent.recoverSeg s :: recoverLoop fetch rest s true) := by
  refine ⟨?_, ?_, ?_⟩
  · intro heq
    subst heq
    simp [recoverLoop, hsid]
  · intro hne htype hfetch
    have hguard : (w && sid == s) = false := by
      cases w with
      | false => rfl
      | true => simp [hne rfl]
    have htype2 : (e.server_type != ServerType.BACKUP) = false := by
      simp [htype]
    cases hfetch with
    | inl h => simp [recoverLoop, hsid, hguard, htype2, h]
    | inr h => simp [recoverLoop, hsid, hguard, htype2, h]
  · intro hne htype hfetch
    have hguard : (w && sid == s) = false := by
      cases w with
      | false => rfl
      | true => simp [hne rfl]
    have htype2 : (e.server_type != ServerType.BACKUP) = false := by
      simp [htype]
    simp [recoverLoop, hsid, hguard, htype2, hfetch]

theorem backup_recover_step_witness :
    ((recEntry "b1" 7).segment_id = some 7 ∧
      ((true = true → 2 ^ 64 - 1 ≠ 7) ∧
        (recEntry "b1" 7).server_type = ServerType.BACKUP ∧
        fetchFirstFails "b1" 7 = FetchResult.transportError ∧
        recoverLoop fetchFirstFails (recEntry "b1" 7 :: [recEntry "b2" 7])
            (2 ^ 64 - 1) true =
          (if true then [] else [REvent.corrupt (2 ^ 64 - 1)]) ++
            REvent.attempt "b1" 7 ::
              REvent.warnFetchFail "b1" 7 ::
                recoverLoop fetchFirstFails [recEntry "b2" 7] 7 false)) ∧
    ((recEntry "b2" 7).segment_id = some 7 ∧
      recoverLoop fetchAllOk (recEntry "b2" 7 :: []) 7 true =
        REvent.skip "b2" 7 :: recoverLoop fetchAllOk [] 7 true) ∧
    ((recEntry "b2" 7).segment_id = some 7 ∧
      recoverLoop fetchAllOk (recEntry "b2" 7 :: []) 9 true =
        (if true then [] else [REvent.corrupt 9]) ++
          REvent.attempt "b2" 7 ::
            REvent.recoverSeg 7 :: recoverLoop fetchAllOk [] 7 true) :=
  ⟨⟨by decide,
    fun _ => by decide,
    by decide, by decide,
    (backup_recover_step fetchFirstFails (recEntry "b1" 7) [recEntry "b2" 7]
        (2 ^ 64 - 1) 7 true (by decide)).2.1
      (fun _ => by decide) (by decide) (Or.inl (by decide))⟩,
   ⟨by decide,
    (backup_recover_step fetchAllOk (recEntry "b2" 7) [] 7 7 true (by decide)).1
      rfl⟩,
   ⟨by decide,
    (backup_recover_step fetchAllOk (recEntry "b2" 7) [] 9 7 true (by decide)).2.2
      (fun _ => by decide) (by decide) (by decide)⟩⟩

/-- C10 claim theorem: the already-recovered skip in `recover` compares only
against the single most recently recovered segment id.  On the list
(7 via b1, 8 via b2, 7 via b3) with every fetch succeeding, segment 7 is
fetched and replayed twice (once per non-consecutive occurrence), while on
the consecutive list (7 via b1, 7 via b2) the second source is skipped. -/
theorem backup_recover_nonconsecutive_duplicates :
    BackupManager.recover fetchAllOk
        [recEntry "b1" 7, recEntry "b2" 8, recEntry "b3" 7] =
      [REvent.attempt "b1" 7, REvent.recoverSeg 7, REvent.attempt "b2" 8,
        REvent.recoverSeg 8, REvent.attempt "b3" 7, REvent.recoverSeg 7] ∧
    (BackupManager.recover fetchAllOk
          [recEntry "b1" 7, recEntry "b2" 8, recEntry "b3" 7]).countP
        (fun ev => ev == REvent.recoverSeg 7) = 2 ∧
    (BackupManager.recover fetchAllOk
          [recEntry "b1" 7, recEntry "b2" 8, recEntry "b3" 7]).countP
        (fun ev => ev == REvent.attempt "b3" 7) = 1 ∧
    BackupManager.recover fetchAllOk [recEntry "b1" 7, recEntry "b2" 7] =
      [REvent.attempt "b1" 7, REvent.recoverSeg 7, REvent.skip "b2" 7] := by
  refine ⟨by decide, by decide, by decide, by decide⟩

/-! ### Host selection and open/close alternation (C3, C4) -/

theorem selectLoop_length (hosts : List HostEntry) (replicas : Nat) :
    ∀ fuel random i acc out, i ≤ replicas →
      selectLoop hosts replicas fuel random i acc = some out →
      out.length = acc.length + (replicas - i) := by
  intro fuel
  induction fuel with
  | zero =>
    intro random i acc out hi hsel
    rw [selectLoop] at hsel
    by_cases hlt : i < replicas
    · simp [hlt] at hsel
    · have hieq : i = replicas := by omega
      simp [hlt] at hsel
      rw [← hsel]
      omega
  | succ fuel ih =>
    intro random i acc out hi hsel
    rw [selectLoop] at hsel
    by_cases hlt : i < replicas
    · simp only [if_pos hlt] at hsel
      by_cases hback :
          (hosts.getD (random % hosts.length) defaultHost).server_type =
            ServerType.BACKUP
      · rw [if_pos hback] at hsel
        have hrec := ih ((random + 1) % 2 ^ 64) (i + 1)
          (acc ++ [(random % hosts.length,
            (hosts.getD (random % hosts.length) defaultHost).service_locator)])
          out (by omega) hsel
        simp only [List.length_append, List.length_cons, List.length_nil] at hrec
        omega
      · rw [if_neg hback] at hsel
        have hrec := ih ((random + 1) % 2 ^ 64) i acc out (by omega) hsel
        omega
    · have hieq : i = replicas := by omega
      simp [hlt] at hsel
      rw [← hsel]
      omega

theorem selectOpenHosts_ok_shape (bm : BackupManager) (random : Nat)
    (bm₁ : BackupManager) (evs : List BEvent)
    (hok : bm.selectOpenHosts random = Except.ok (bm₁, evs)) :
    bm₁.replicas = bm.replicas ∧ bm₁.segments = bm.segments ∧
    (0 < bm.replicas → bm₁.openHosts.length = bm.replicas) := by
  unfold BackupManager.selectOpenHosts at hok
  by_cases h0 : bm.replicas = 0
  · rw [if_pos h0] at hok
    simp only [Except.ok.injEq, Prod.mk.injEq] at hok
    obtain ⟨hbm, _⟩ := hok
    rw [← hbm]
    exact ⟨rfl, rfl, fun hpos => by omega⟩
  · rw [if_neg h0] at hok
    by_cases hemp : bm.hosts.isEmpty
    · cases hco : bm.coordinator with
      | none => rw [hemp] at hok; rw [hco] at hok; simp at hok
      | some serverList =>
        rw [hemp] at hok
        rw [hco] at hok
        rw [if_pos rfl] at hok
        by_cases hcount :
            serverList.countP (fun entry => entry.server_type == ServerType.BACKUP) <
              bm.replicas
        · simp [hcount] at hok
        · simp only [show ({ bm with hosts := serverList } : BackupManager).hosts =
              serverList from rfl,
            show ({ bm with hosts := serverList } : BackupManager).replicas =
              bm.replicas from rfl,
            show ({ bm with hosts := serverList } : BackupManager).openHosts =
              bm.openHosts from rfl] at hok
          rw [if_neg hcount] at hok
          by_cases hoh : bm.openHosts.isEmpty = false
          · simp [hoh] at hok
          · rw [if_neg hoh] at hok
            cases hsel : selectLoop serverList bm.replicas
                (selectFuel serverList.length bm.replicas) random 0 [] with
            | none => rw [hsel] at hok; simp at hok
            | some chosen =>
              rw [hsel] at hok
              simp only [Except.ok.injEq, Prod.mk.injEq] at hok
              obtain ⟨hbm, _⟩ := hok
              rw [← hbm]
              refine ⟨rfl, rfl, fun hpos => ?_⟩
              show (chosen.map Prod.snd).length = bm.replicas
              rw [List.length_map]
              have := selectLoop_length serverList bm.replicas
                (selectFuel serverList.length bm.replicas) random 0 [] chosen
                (by omega) hsel
              simpa using this
    · have hemp2 : bm.hosts.isEmpty = false := by
        cases hn : bm.hosts.isEmpty
        · rfl
        · exact absurd hn hemp
      rw [hemp2] at hok
      simp only [Bool.false_eq_true, if_false] at hok
      by_cases hcount :
          bm.hosts.countP (fun entry => entry.server_type == ServerType.BACKUP) <
            bm.replicas
      · simp [hcount] at hok
      · rw [if_neg hcount] at hok
        by_cases hoh : bm.openHosts.isEmpty = false
        · simp [hoh] at hok
        · rw [if_neg hoh] at hok
          cases hsel : selectLoop bm.hosts bm.replicas
              (selectFuel bm.hosts.length bm.replicas) random 0 [] with
          | none => rw [hsel] at hok; simp at hok
          | some chosen =>
            rw [hsel] at hok
            simp only [Except.ok.injEq, Prod.mk.injEq] at hok
            obtain ⟨hbm, _⟩ := hok
            rw [← hbm]
            refine ⟨rfl, rfl, fun hpos => ?_⟩
            show (chosen.map Prod.snd).length = bm.replicas
            rw [List.length_map]
            have := selectLoop_length bm.hosts bm.replicas
              (selectFuel bm.hosts.length bm.replicas) random 0 [] chosen
              (by omega) hsel
            simpa using this

theorem openSegment_ok_shape (bm bm' : BackupManager)
    (random masterId segId : Nat) (evs : List BEvent)
    (hok : bm.openSegment random masterId segId = Except.ok (bm', evs)) :
    bm'.replicas = bm.replicas ∧
    (0 < bm.replicas → bm'.openHosts.length = bm.replicas) := by
  unfold BackupManager.openSegment at hok
  cases hsel : bm.selectOpenHosts random with
  | error e => rw [hsel] at hok; simp at hok
  | ok pr =>
    obtain ⟨bm₁, evs₁⟩ := pr
    rw [hsel] at hok
    simp only [Except.ok.injEq, Prod.mk.injEq] at hok
    obtain ⟨hbm, _⟩ := hok
    obtain ⟨hrep, _, hlen⟩ := selectOpenHosts_ok_shape bm random bm₁ evs₁ hsel
    rw [← hbm]
    exact ⟨hrep, hlen⟩

theorem closeSegment_shape (bm : BackupManager) (masterId segId : Nat) :
    (bm.closeSegment masterId segId).1.openHosts = [] ∧
    (bm.closeSegment masterId segId).1.segments = bm.segments ∧
    (bm.closeSegment masterId segId).1.replicas = bm.replicas ∧
    (bm.closeSegment masterId segId).2 =
      bm.openHosts.map (fun h => BEvent.closeSeg h masterId segId) :=
  ⟨rfl, rfl, rfl, rfl⟩

theorem runOps_openHosts (ops : List BOp) :
    ∀ bm bm' tr, 0 < bm.replicas →
      BackupManager.runOps bm ops = Except.ok (bm', tr) →
      (ops = [] → bm' = bm) ∧
      (ops ≠ [] → (bm'.openHosts = [] ↔ endsWithClose ops = true)) := by
  induction ops with
  | nil =>
    intro bm bm' tr hrep hrun
    refine ⟨fun _ => ?_, fun h => absurd rfl h⟩
    unfold BackupManager.runOps at hrun
    simp only [Except.ok.injEq, Prod.mk.injEq] at hrun
    exact hrun.1.symm
  | cons op rest ih =>
    intro bm bm' tr hrep hrun
    refine ⟨fun h => by simp at h, fun _ => ?_⟩
    unfold BackupManager.runOps at hrun
    have hstep : ∀ bm₁ evs₁, bm.runOp op = Except.ok (bm₁, evs₁) →
        bm₁.replicas = bm.replicas ∧
        (rest = [] → (bm₁.openHosts = [] ↔ isCloseOp op = true)) := by
      intro bm₁ evs₁ hmid
      cases op with
      | openSeg r m s =>
        simp only [BackupManager.runOp] at hmid
        obtain ⟨hrep', hlen⟩ := openSegment_ok_shape bm bm₁ r m s evs₁ hmid
        refine ⟨hrep', fun _ => ?_⟩
        simp only [isCloseOp]
        constructor
        · intro hempty
          have := hlen hrep
          rw [hempty] at this
          simp at this
          omega
        · intro hfalse; exact absurd hfalse (by simp)
      | closeSeg m s =>
        simp only [BackupManager.runOp] at hmid
        injection hmid with h2
        have hb : bm₁ = (bm.closeSegment m s).1 := by rw [h2]
        rw [hb]
        exact ⟨rfl, fun _ => by simp [BackupManager.closeSegment, isCloseOp]⟩
    cases hmid : bm.runOp op with
    | error e => simp only [hmid] at hrun; exact Except.noConfusion hrun
    | ok pr =>
      obtain ⟨bm₁, evs₁⟩ := pr
      simp only [hmid] at hrun
      cases hrest : BackupManager.runOps bm₁ rest with
      | error e => simp only [hrest] at hrun; exact Except.noConfusion hrun
      | ok pr2 =>
        obtain ⟨bm₂, evs₂⟩ := pr2
        simp only [hrest, Except.ok.injEq, Prod.mk.injEq] at hrun
        obtain ⟨hbm2, _⟩ := hrun
        obtain ⟨hrep1, hlastone⟩ := hstep bm₁ evs₁ hmid
        have hrep1' : 0 < bm₁.replicas := by omega
        obtain ⟨hnilcase, hconscase⟩ := ih bm₁ bm₂ evs₂ hrep1' hrest
        cases hr : rest with
        | nil =>
          have hbm21 : bm₂ = bm₁ := hnilcase hr
          rw [← hbm2, hbm21]
          have hlast1 : endsWithClose [op] = isCloseOp op := by
            simp [endsWithClose, List.getLast?]
          rw [hlast1]
          exact hlastone hr
        | cons o2 r2 =>
          rw [← hbm2]
          have hendsEq : endsWithClose (op :: o2 :: r2) = endsWithClose (o2 :: r2) := by
            simp [endsWithClose, List.getLast?_cons_cons]
          rw [hendsEq]
          rw [hr] at hconscase
          exact hconscase (by simp)

/-- C3 claim theorem (amended with `replicas > 0`): starting from a manager
with no open hosts, after any successful sequence of `openSegment` and
`closeSegment` calls, `openHosts` is empty exactly when no call occurred or
the last call was a `closeSegment`; and `closeSegment` issues a remote
close to every client of `openHosts`, empties `openHosts`, and leaves the
`segments` multimap untouched. -/
theorem backup_open_close_alternation (bm : BackupManager) (ops : List BOp)
    (bm' : BackupManager) (tr : List BEvent) (masterId segId : Nat)
    (hrep : 0 < bm.replicas) (hinit : bm.openHosts = [])
    (hrun : BackupManager.runOps bm ops = Except.ok (bm', tr)) :
    (bm'.openHosts = [] ↔ (ops = [] ∨ endsWithClose ops = true)) ∧
    ((bm'.closeSegment masterId segId).2 =
      bm'.openHosts.map (fun h => BEvent.closeSeg h masterId segId) ∧
     (bm'.closeSegment masterId segId).1.openHosts = [] ∧
     (bm'.closeSegment masterId segId).1.segments = bm'.segments) := by
  obtain ⟨hnil, hcons⟩ := runOps_openHosts ops bm bm' tr hrep hrun
  refine ⟨?_, rfl, rfl, rfl⟩
  cases hops : ops with
  | nil =>
    rw [hnil hops, hinit]
    simp
  | cons o rest =>
    rw [← hops]
    have hne : ops ≠ [] := by rw [hops]; simp
    rw [hcons hne]
    constructor
    · intro h; exact Or.inr h
    · intro h
      cases h with
      | inl h => exact absurd h hne
      | inr h => exact h

/-- C3 counterexample: with `replicas = 0`, a successful `openSegment` run
leaves `openHosts` empty although the most recent call was not a close, so
the claimed equivalence fails as stated. -/
theorem backup_open_close_alternation_cex :
    bmZeroReplicas.openHosts = [] ∧
    (excOk? (BackupManager.runOps bmZeroReplicas [BOp.openSeg 0 5 7])).map
        (fun pr => pr.1.openHosts) = some [] ∧
    ¬([BOp.openSeg 0 5 7] = ([] : List BOp) ∨
      endsWithClose [BOp.openSeg 0 5 7] = true) := by
  refine ⟨by decide, by decide, by decide⟩

theorem backup_open_close_alternation_witness :
    0 < bmOneBackup.replicas ∧ bmOneBackup.openHosts = [] ∧
    BackupManager.runOps bmOneBackup
        [BOp.openSeg 0 5 7, BOp.closeSeg 5 7, BOp.openSeg 0 5 8] =
      Except.ok
        ({ coordinator := none, hosts := [backupHost "b0"], openHosts := ["b0"],
           replicas := 1, segments := [(7, "b0"), (8, "b0")] },
         [BEvent.openSeg "b0" 5 7, BEvent.closeSeg "b0" 5 7,
          BEvent.openSeg "b0" 5 8]) ∧
    ((({ coordinator := none, hosts := [backupHost "b0"], openHosts := ["b0"],
         replicas := 1, segments := [(7, "b0"), (8, "b0")] } : BackupManager).openHosts =
          [] ↔
        ([BOp.openSeg 0 5 7, BOp.closeSeg 5 7, BOp.openSeg 0 5 8] = ([] : List BOp) ∨
          endsWithClose [BOp.openSeg 0 5 7, BOp.closeSeg 5 7, BOp.openSeg 0 5 8] =
            true)) ∧
      (({ coordinator := none, hosts := [backupHost "b0"], openHosts := ["b0"],
          replicas := 1, segments := [(7, "b0"), (8, "b0")] } : BackupManager).closeSegment
            6 9).2 =
        ["b0"].map (fun h => BEvent.closeSeg h 6 9)) :=
  ⟨by decide, by decide, by decide,
   (backup_open_close_alternation bmOneBackup
      [BOp.openSeg 0 5 7, BOp.closeSeg 5 7, BOp.openSeg 0 5 8]
      { coordinator := none, hosts := [backupHost "b0"], openHosts := ["b0"],
        replicas := 1, segments := [(7, "b0"), (8, "b0")] }
      [BEvent.openSeg "b0" 5 7, BEvent.closeSeg "b0" 5 7, BEvent.openSeg "b0" 5 8]
      6 9 (by decide) (by decide) (by decide)).1,
   (backup_open_close_alternation bmOneBackup
      [BOp.openSeg 0 5 7, BOp.closeSeg 5 7, BOp.openSeg 0 5 8]
      { coordinator := none, hosts := [backupHost "b0"], openHosts := ["b0"],
        replicas := 1, segments := [(7, "b0"), (8, "b0")] }
      [BEvent.openSeg "b0" 5 7, BEvent.closeSeg "b0" 5 7, BEvent.openSeg "b0" 5 8]
      6 9 (by decide) (by decide) (by decide)).2.1⟩

/-! ### Distinctness of the selected backups (C4) -/

theorem idxList_no_wrap (numHosts : Nat) :
    ∀ n random, random + n ≤ 2 ^ 64 →
      idxList numHosts n random =
        (List.range n).map (fun k => (random + k) % numHosts) := by
  intro n
  induction n with
  | zero => intro random _; rfl
  | succ m ih =>
    intro random hw
    rw [idxList]
    cases m with
    | zero => simp [idxList, List.range_succ]
    | succ m2 =>
      have h1 : (random + 1) % 2 ^ 64 = random + 1 := Nat.mod_eq_of_lt (by omega)
      rw [h1, ih (random + 1) (by omega)]
      conv_rhs => rw [List.range_succ_eq_map, List.map_cons, List.map_map]
      simp only [Nat.add_zero]
      apply congrArg (List.cons (random % numHosts))
      apply List.map_congr_left
      intro k _
      have harith : random + 1 + k = random + (k + 1) := by omega
      show (random + 1 + k) % numHosts = (random + (k + 1)) % numHosts
      rw [harith]

theorem idxList_extend (L : Nat) :
    ∀ n fuel random, n ≤ fuel →
      ∃ tail, idxList L fuel random = idxList L n random ++ tail := by
  intro n
  induction n with
  | zero => intro fuel random _; exact ⟨idxList L fuel random, rfl⟩
  | succ m ih =>
    intro fuel random hn
    obtain ⟨f2, hf2⟩ : ∃ f2, fuel = f2 + 1 := ⟨fuel - 1, by omega⟩
    subst hf2
    obtain ⟨tail, htail⟩ := ih f2 ((random + 1) % 2 ^ 64) (by omega)
    refine ⟨tail, ?_⟩
    rw [idxList, idxList, htail]
    rfl

theorem range_map_mod_eq_rotate (L r : Nat) :
    (List.range L).map (fun k => (r + k) % L) = (List.range L).rotate (r % L) := by
  apply List.ext_getElem
  · simp
  · intro k h1 h2
    rw [List.getElem_map, List.getElem_range, List.getElem_rotate]
    rw [List.getElem_range]
    rw [List.length_range]
    conv_lhs => rw [Nat.add_comm r k, Nat.add_mod]
    conv_rhs => rw [Nat.add_mod, Nat.mod_mod_of_dvd r (dvd_refl L)]

theorem countP_range_getD (hosts : List HostEntry) :
    (List.range hosts.length).countP
        (fun ix => (hosts.getD ix defaultHost).server_type == ServerType.BACKUP) =
      countBackups hosts := by
  unfold countBackups
  induction hosts with
  | nil => rfl
  | cons h t ih =>
    rw [List.length_cons, List.range_succ_eq_map, List.countP_cons, List.countP_map,
      List.countP_cons]
    simp only [Function.comp_def, List.getD_cons_succ, List.getD_cons_zero]
    rw [ih]

theorem takeBackups_some_spec (hosts : List HostEntry) :
    ∀ ks n out, takeBackups hosts n ks = some out →
      out.length = n ∧ (out.map Prod.fst).Sublist ks ∧
      ∀ pr ∈ out, (hosts.getD pr.1 defaultHost).server_type = ServerType.BACKUP ∧
        pr.2 = (hosts.getD pr.1 defaultHost).service_locator := by
  intro ks
  induction ks with
  | nil =>
    intro n out h
    cases n with
    | zero =>
      simp only [takeBackups, Option.some.injEq] at h
      rw [← h]
      exact ⟨rfl, by simp, by simp⟩
    | succ m => simp [takeBackups] at h
  | cons ix rest ih =>
    intro n out h
    cases n with
    | zero =>
      simp only [takeBackups, Option.some.injEq] at h
      rw [← h]
      exact ⟨rfl, by simp, by simp⟩
    | succ m =>
      simp only [takeBackups] at h
      by_cases hback :
          (hosts.getD ix defaultHost).server_type = ServerType.BACKUP
      · rw [if_pos hback] at h
        cases hrec : takeBackups hosts m rest with
        | none => rw [hrec] at h; simp at h
        | some out0 =>
          rw [hrec] at h
          simp only [Option.map_some', Option.some.injEq] at h
          obtain ⟨hl, hs, hp⟩ := ih m out0 hrec
          rw [← h]
          refine ⟨by simp [hl], ?_, ?_⟩
          · rw [List.map_cons]
            exact List.Sublist.cons₂ _ hs
          · intro pr hpr
            cases hpr with
            | head => exact ⟨hback, rfl⟩
            | tail _ hq => exact hp pr hq
      · rw [if_neg hback] at h
        obtain ⟨hl, hs, hp⟩ := ih (m + 1) out h
        exact ⟨hl, hs.cons _, hp⟩

theorem takeBackups_append_left (hosts : List HostEntry) :
    ∀ ks₁ ks₂ n, (takeBackups hosts n ks₁).isSome = true →
      takeBackups hosts n (ks₁ ++ ks₂) = takeBackups hosts n ks₁ := by
  intro ks₁
  induction ks₁ with
  | nil =>
    intro ks₂ n h
    cases n with
    | zero => simp [takeBackups]
    | succ m => simp [takeBackups] at h
  | cons ix rest ih =>
    intro ks₂ n h
    cases n with
    | zero => simp [takeBackups]
    | succ m =>
      rw [List.cons_append]
      simp only [takeBackups] at h ⊢
      by_cases hback :
          (hosts.getD ix defaultHost).server_type = ServerType.BACKUP
      · simp only [if_pos hback] at h ⊢
        have hrs : (takeBackups hosts m rest).isSome = true := by
          cases hrec : takeBackups hosts m rest with
          | none => rw [hrec] at h; simp at h
          | some out0 => rfl
        rw [ih ks₂ m hrs]
      · simp only [if_neg hback] at h ⊢
        exact ih ks₂ (m + 1) h

theorem takeBackups_isSome_of_count (hosts : List HostEntry) :
    ∀ ks n,
      n ≤ ks.countP
          (fun ix => (hosts.getD ix defaultHost).server_type == ServerType.BACKUP) →
      (takeBackups hosts n ks).isSome = true := by
  intro ks
  induction ks with
  | nil =>
    intro n h
    simp only [List.countP_nil, Nat.le_zero] at h
    rw [h]
    rfl
  | cons ix rest ih =>
    intro n h
    cases n with
    | zero => rfl
    | succ m =>
      simp only [takeBackups]
      rw [List.countP_cons] at h
      by_cases hback :
          (hosts.getD ix defaultHost).server_type = ServerType.BACKUP
      · rw [if_pos hback]
        have hpred :
            ((hosts.getD ix defaultHost).server_type == ServerType.BACKUP) = true :=
          beq_iff_eq.mpr hback
        simp only [hpred, if_true] at h
        have hrs := ih m (by omega)
        cases hrec : takeBackups hosts m rest with
        | none => rw [hrec] at hrs; simp at hrs
        | some out0 => simp [hrec]
      · rw [if_neg hback]
        apply ih
        have hpred :
            ((hosts.getD ix defaultHost).server_type == ServerType.BACKUP) = false :=
          beq_eq_false_iff_ne.mpr hback
        simp only [hpred, Bool.false_eq_true, if_false] at h
        omega

theorem selectLoop_eq_takeBackups (hosts : List HostEntry) (replicas : Nat) :
    ∀ fuel random i acc, i ≤ replicas →
      selectLoop hosts replicas fuel random i acc =
        (takeBackups hosts (replicas - i)
            (idxList hosts.length fuel random)).map (fun out => acc ++ out) := by
  intro fuel
  induction fuel with
  | zero =>
    intro random i acc hi
    rw [selectLoop]
    by_cases hlt : i < replicas
    · rw [if_pos hlt]
      obtain ⟨m, hm⟩ : ∃ m, replicas - i = m + 1 := ⟨replicas - i - 1, by omega⟩
      rw [show idxList hosts.length 0 random = [] from rfl, hm]
      rfl
    · rw [if_neg hlt]
      have h0 : replicas - i = 0 := by omega
      rw [show idxList hosts.length 0 random = [] from rfl, h0]
      simp [takeBackups]
  | succ fuel ih =>
    intro random i acc hi
    rw [selectLoop, idxList]
    by_cases hlt : i < replicas
    · rw [if_pos hlt]
      obtain ⟨m, hm⟩ : ∃ m, replicas - i = m + 1 := ⟨replicas - i - 1, by omega⟩
      rw [hm]
      by_cases hback :
          (hosts.getD (random % hosts.length) defaultHost).server_type =
            ServerType.BACKUP
      · rw [if_pos hback]
        have hRHS : takeBackups hosts (m + 1)
            (random % hosts.length ::
              idxList hosts.length fuel ((random + 1) % 2 ^ 64)) =
            (takeBackups hosts m
                (idxList hosts.length fuel ((random + 1) % 2 ^ 64))).map
              (fun out => (random % hosts.length,
                (hosts.getD (random % hosts.length) defaultHost).service_locator) ::
                  out) := by
          simp only [takeBackups, if_pos hback]
        rw [hRHS]
        rw [ih ((random + 1) % 2 ^ 64) (i + 1)
          (acc ++ [(random % hosts.length,
            (hosts.getD (random % hosts.length) defaultHost).service_locator)])
          (by omega)]
        rw [show replicas - (i + 1) = m by omega]
        cases takeBackups hosts m (idxList hosts.length fuel ((random + 1) % 2 ^ 64)) with
        | none => rfl
        | some out => simp
      · rw [if_neg hback]
        have hRHS : takeBackups hosts (m + 1)
            (random % hosts.length ::
              idxList hosts.length fuel ((random + 1) % 2 ^ 64)) =
            takeBackups hosts (m + 1)
              (idxList hosts.length fuel ((random + 1) % 2 ^ 64)) := by
          simp only [takeBackups, if_neg hback]
        rw [hRHS, ← hm]
        exact ih ((random + 1) % 2 ^ 64) i acc hi
    · rw [if_neg hlt]
      have h0 : replicas - i = 0 := by omega
      rw [h0]
      simp [takeBackups]

/-- Under the preconditions `selectOpenHosts` checks, and with no 64-bit
wraparound of the random counter during the selection window, the loop
returns exactly `replicas` pairwise-distinct BACKUP entries of the host
list. -/
theorem selectLoop_success (hosts : List HostEntry) (replicas random fuel : Nat)
    (hrep : 0 < replicas) (hc : replicas ≤ countBackups hosts)
    (hwrap : random + hosts.length ≤ 2 ^ 64) (hfuel : hosts.length ≤ fuel) :
    ∃ chosen,
      selectLoop hosts replicas fuel random 0 [] = some chosen ∧
      chosen.length = replicas ∧ (chosen.map Prod.fst).Nodup ∧
      ∀ pr ∈ chosen, pr.1 < hosts.length ∧
        (hosts.getD pr.1 defaultHost).server_type = ServerType.BACKUP ∧
        pr.2 = (hosts.getD pr.1 defaultHost).service_locator := by
  have hA : idxList hosts.length hosts.length random =
      (List.range hosts.length).map (fun k => (random + k) % hosts.length) :=
    idxList_no_wrap hosts.length hosts.length random hwrap
  have hrot : (List.range hosts.length).map (fun k => (random + k) % hosts.length) =
      (List.range hosts.length).rotate (random % hosts.length) :=
    range_map_mod_eq_rotate hosts.length random
  have hcount2 : replicas ≤ (idxList hosts.length hosts.length random).countP
      (fun ix => (hosts.getD ix defaultHost).server_type == ServerType.BACKUP) := by
    rw [hA, hrot, (List.rotate_perm _ _).countP_eq, countP_range_getD]
    exact hc
  have hsome := takeBackups_isSome_of_count hosts
    (idxList hosts.length hosts.length random) replicas hcount2
  obtain ⟨tail, htail⟩ := idxList_extend hosts.length hosts.length fuel random hfuel
  have hdet : takeBackups hosts replicas (idxList hosts.length fuel random) =
      takeBackups hosts replicas (idxList hosts.length hosts.length random) := by
    rw [htail]
    exact takeBackups_append_left hosts _ tail replicas hsome
  cases hTB : takeBackups hosts replicas (idxList hosts.length hosts.length random) with
  | none => rw [hTB] at hsome; simp at hsome
  | some chosen =>
    obtain ⟨hlen, hsub, hprop⟩ := takeBackups_some_spec hosts _ replicas chosen hTB
    have hAnodup : (idxList hosts.length hosts.length random).Nodup := by
      rw [hA, hrot]
      exact List.nodup_rotate.mpr (List.nodup_range _)
    refine ⟨chosen, ?_, hlen, hsub.nodup hAnodup, ?_⟩
    · rw [selectLoop_eq_takeBackups hosts replicas fuel random 0 [] (by omega)]
      rw [show replicas - 0 = replicas from rfl, hdet, hTB]
      simp
    · intro pr hpr
      obtain ⟨hb, hloc⟩ := hprop pr hpr
      refine ⟨?_, hb, hloc⟩
      have hm : pr.1 ∈ idxList hosts.length hosts.length random :=
        hsub.subset (List.mem_map_of_mem Prod.fst hpr)
      rw [hA, hrot] at hm
      exact List.mem_range.mp
        ((List.rotate_perm (List.range hosts.length) (random % hosts.length)).subset hm)

/-- C4 claim theorem (amended with a no-wraparound hypothesis on the random
start value): after `setHostList H`, an `openSegment` with `replicas > 0`,
no open hosts, at least `replicas` BACKUP entries in `H` and no 64-bit
wraparound of the random counter during selection, opens exactly
`replicas` pairwise-distinct BACKUP entries drawn from `H`, calls the
remote `openSegment` on each (never the coordinator), and leaves exactly
`replicas` entries with key `segId` in the `segments` multimap. -/
theorem backup_openSegment_selects_replicas (bm : BackupManager)
    (H : List HostEntry) (random masterId segId : Nat)
    (hrep : 0 < bm.replicas) (hopen : bm.openHosts = [])
    (hcount : bm.replicas ≤ countBackups H)
    (hkey : bm.segments.countP (fun kv => kv.1 == segId) = 0)
    (hwrap : random + H.length ≤ 2 ^ 64) :
    ∃ chosen,
      selectLoop H bm.replicas (selectFuel H.length bm.replicas) random 0 [] =
        some chosen ∧
      chosen.length = bm.replicas ∧
      (chosen.map Prod.fst).Nodup ∧
      (∀ pr ∈ chosen, pr.1 < H.length ∧
        (H.getD pr.1 defaultHost).server_type = ServerType.BACKUP ∧
        pr.2 = (H.getD pr.1 defaultHost).service_locator) ∧
      (bm.setHostList H).openSegment random masterId segId =
        Except.ok
          ({ bm with
              hosts := H
              openHosts := chosen.map Prod.snd
              segments := bm.segments ++ chosen.map (fun pr => (segId, pr.2)) },
           chosen.map (fun pr => BEvent.openSeg pr.2 masterId segId)) ∧
      (bm.segments ++ chosen.map (fun pr => (segId, pr.2))).countP
          (fun kv => kv.1 == segId) = bm.replicas := by
  have hHne : H ≠ [] := by
    intro hnil
    rw [hnil] at hcount
    simp [countBackups] at hcount
    omega
  have hfuel : H.length ≤ selectFuel H.length bm.replicas := by
    unfold selectFuel
    rw [show 3 * H.length * (bm.replicas + 1) =
        H.length * (3 * (bm.replicas + 1)) from by ring]
    exact Nat.le_mul_of_pos_right _ (by omega)
  obtain ⟨chosen, hsel, hlen, hnodup, hprop⟩ :=
    selectLoop_success H bm.replicas random (selectFuel H.length bm.replicas)
      hrep hcount hwrap hfuel
  refine ⟨chosen, hsel, hlen, hnodup, hprop, ?_, ?_⟩
  · have h0 : ¬(bm.replicas = 0) := by omega
    have hcnt :
        ¬(H.countP (fun entry => entry.server_type == ServerType.BACKUP) <
          bm.replicas) := by
      unfold countBackups at hcount
      omega
    simp [BackupManager.openSegment, BackupManager.selectOpenHosts,
      BackupManager.setHostList, h0, hHne, hopen, hcnt, hsel, List.map_map,
      Function.comp_def]
  · rw [List.countP_append, hkey]
    rw [List.countP_map]
    have hconst :
        ((fun kv : Nat × String => kv.1 == segId) ∘
          fun pr : Nat × String => (segId, pr.2)) = fun _ => true := by
      funext pr
      simp
    rw [hconst, List.countP_true, hlen]
    omega

/-- C4 counterexample: with hosts (b0 BACKUP, b1 BACKUP, m0 MASTER),
`replicas = 2` and `generateRandom() = 2^64 - 1`, the 64-bit wraparound of
`random++` makes `selectOpenHosts` pick host entry 0 twice, so the chosen
entries are not distinct, refuting the claim as stated. -/
theorem backup_openSegment_selects_replicas_cex :
    selectLoop bmTwoBackups.hosts bmTwoBackups.replicas
        (selectFuel bmTwoBackups.hosts.length bmTwoBackups.replicas)
        (2 ^ 64 - 1) 0 [] = some [(0, "b0"), (0, "b0")] ∧
    ¬(([(0, "b0"), (0, "b0")].map (Prod.fst : Nat × String → Nat)).Nodup) ∧
    (excOk? (bmTwoBackups.openSegment (2 ^ 64 - 1) 5 7)).map
        (fun pr => pr.1.openHosts) = some ["b0", "b0"] := by
  refine ⟨by decide, by decide, by decide⟩

theorem backup_openSegment_selects_replicas_witness :
    (0 < bmTwoBackups.replicas ∧ bmTwoBackups.openHosts = [] ∧
      bmTwoBackups.replicas ≤ countBackups bmTwoBackups.hosts ∧
      bmTwoBackups.segments.countP (fun kv => kv.1 == 7) = 0 ∧
      1 + bmTwoBackups.hosts.length ≤ 2 ^ 64) ∧
    ∃ chosen : List (Nat × String),
      selectLoop bmTwoBackups.hosts bmTwoBackups.replicas
          (selectFuel bmTwoBackups.hosts.length bmTwoBackups.replicas) 1 0 [] =
        some chosen ∧
      chosen.length = bmTwoBackups.replicas ∧
      (chosen.map Prod.fst).Nodup ∧
      (∀ pr ∈ chosen, pr.1 < bmTwoBackups.hosts.length ∧
        (bmTwoBackups.hosts.getD pr.1 defaultHost).server_type =
          ServerType.BACKUP ∧
        pr.2 = (bmTwoBackups.hosts.getD pr.1 defaultHost).service_locator) ∧
      (bmTwoBackups.setHostList bmTwoBackups.hosts).openSegment 1 5 7 =
        Except.ok
          ({ bmTwoBackups with
              hosts := bmTwoBackups.hosts
              openHosts := chosen.map Prod.snd
              segments := bmTwoBackups.segments ++
                chosen.map (fun pr : Nat × String => (7, pr.2)) },
           chosen.map (fun pr : Nat × String => BEvent.openSeg pr.2 5 7)) ∧
      (bmTwoBackups.segments ++
          chosen.map (fun pr : Nat × String => (7, pr.2))).countP
          (fun kv : Nat × String => kv.1 == 7) = bmTwoBackups.replicas :=
  ⟨⟨by decide, by decide, by decide, by decide, by decide⟩,
   backup_openSegment_selects_replicas bmTwoBackups bmTwoBackups.hosts 1 5 7
     (by decide) (by decide) (by decide) (by decide) (by decide)⟩

end RAMCloud
